import Mathlib

/-!
# share-button: `src/shareUtils.js`

A shallow embedding of the `ShareUtils` helpers that carry logic (`_isEncoded`,
`_encode`, `popup`, `_merge`, `_objToArray`) and of `String.prototype.toRFC3986`,
followed by theorems about them.

Data model.

* A JavaScript string is its sequence of UTF-16 code units (`JSString`).
* A JavaScript value is `undefined`, `null`, a boolean, a number, a string or
  an object.  An object is the list of its own enumerable data properties in
  enumeration order, tagged as a plain object or an array (an array holds its
  elements under the index keys `"0"`, `"1"`, ...).  Values are finite trees,
  so a cyclic object has no counterpart.  Functions, accessors, the prototype
  chain and the non-enumerable `length` of an array are not part of the data
  model: a property read or written under the key `__proto__`, and a write
  under the key `length` of an array, are not the ordinary property accesses
  that `lookupKey` and `setEntry` describe.  The theorems that say which values
  `_merge` writes for every source are stated for sources without such keys
  (`avoidsKeys`).
* Numbers are only copied by the code, never computed with; integers stand
  for them.
* A thrown exception is the `error` case of `Except JSError`.
* The one field the class writes on its instance, `this.str`, lives in the
  instance's field list, which the stateful methods take and give back.
* `encodeURIComponent` and `decodeURIComponent` are supplied by the host; they
  are a parameter (`Platform`) of the code that calls them, and `ecma` is the
  instance that follows ECMA-262.
-/

namespace ShareButton

/-! ## Values -/

/-- A string is a sequence of UTF-16 code units. -/
abbrev JSString := List Nat

/-- The exceptions the code can raise. -/
inductive JSError where
  | TypeError
  | URIError
  | ReferenceError
  deriving DecidableEq

/-- Whether an object is a plain object or an array. -/
inductive ObjClass where
  | plain
  | array
  deriving DecidableEq

/-- JavaScript values: primitives, and objects as lists of own enumerable properties. -/
inductive JSValue where
  | undefined
  | null
  | bool (b : Bool)
  | number (n : Int)
  | string (s : JSString)
  | object (cls : ObjClass) (props : List (JSString × JSValue))

/-- Own enumerable properties of an object, in enumeration order. -/
abbrev Props := List (JSString × JSValue)

/-- The UTF-16 code units of one Unicode scalar value. -/
def utf16EncodeCodePoint (cp : Nat) : JSString :=
  if cp < 0x10000 then [cp]
  else [0xD800 + (cp - 0x10000) / 0x400, 0xDC00 + (cp - 0x10000) % 0x400]

/-- The code units of a list of characters. -/
def utf16Chars : List Char → JSString
  | [] => []
  | c :: cs => utf16EncodeCodePoint c.toNat ++ utf16Chars cs

/-- A string literal as a JavaScript string. -/
def utf16 (s : String) : JSString := utf16Chars s.toList

/-- The empty object literal. -/
def emptyObject : JSValue := .object .plain []

/-- True when `typeof v === 'object'`: objects, arrays and `null`. -/
def typeofIsObject : JSValue → Bool
  | .null => true
  | .object _ _ => true
  | _ => false

/-! ## The host's URI functions (ECMA-262, 19.2.6) -/

/-- The characters `encodeURIComponent` leaves alone: letters, digits and `- _ . ! ~ * ' ( )`. -/
def isUnescaped (c : Nat) : Bool :=
  (0x41 ≤ c && c ≤ 0x5A) || (0x61 ≤ c && c ≤ 0x7A) || (0x30 ≤ c && c ≤ 0x39) ||
  c == 0x2D || c == 0x5F || c == 0x2E || c == 0x21 || c == 0x7E ||
  c == 0x2A || c == 0x27 || c == 0x28 || c == 0x29

/-- An upper-case hexadecimal digit as a code unit. -/
def hexDigitUpper (d : Nat) : Nat := if d < 10 then 0x30 + d else 0x41 + (d - 10)

/-- One octet written as `%XX`. -/
def percentOctet (b : Nat) : JSString := [0x25, hexDigitUpper (b / 16), hexDigitUpper (b % 16)]

/-- The UTF-8 octets of a code point. -/
def utf8Octets (cp : Nat) : List Nat :=
  if cp < 0x80 then [cp]
  else if cp < 0x800 then [0xC0 + cp / 0x40, 0x80 + cp % 0x40]
  else if cp < 0x10000 then [0xE0 + cp / 0x1000, 0x80 + cp / 0x40 % 0x40, 0x80 + cp % 0x40]
  else [0xF0 + cp / 0x40000, 0x80 + cp / 0x1000 % 0x40, 0x80 + cp / 0x40 % 0x40, 0x80 + cp % 0x40]

/-- The escaped form of a list of octets. -/
def percentOctets : List Nat → JSString
  | [] => []
  | b :: bs => percentOctet b ++ percentOctets bs

/-- A code unit in the high-surrogate range. -/
def isHighSurrogate (c : Nat) : Bool := 0xD800 ≤ c && c ≤ 0xDBFF

/-- A code unit in the low-surrogate range. -/
def isLowSurrogate (c : Nat) : Bool := 0xDC00 ≤ c && c ≤ 0xDFFF

/-- The method `String.prototype.isWellFormed`: no surrogate code unit stands unpaired. -/
def isWellFormed : JSString → Bool
  | [] => true
  | c :: rest =>
    if isLowSurrogate c then false
    else if isHighSurrogate c then
      match rest with
      | d :: rest2 => isLowSurrogate d && isWellFormed rest2
      | [] => false
    else isWellFormed rest

/-- The step `R = R + S` seen from the front: `S` goes before what the rest of the
string yields, and an exception raised by the rest stays an exception. -/
def prependTo (S : JSString) : Except JSError JSString → Except JSError JSString
  | .ok R => .ok (S ++ R)
  | .error e => .error e

/-- The abstract operation `Encode` with the unescaped set of `encodeURIComponent`:
an unpaired surrogate raises `URIError`. -/
def encodeURIComponent : JSString → Except JSError JSString
  | [] => .ok []
  | c :: rest =>
    if isUnescaped c then prependTo [c] (encodeURIComponent rest)
    else if isLowSurrogate c then .error .URIError
    else if isHighSurrogate c then
      match rest with
      | d :: rest2 =>
        if isLowSurrogate d then
          prependTo (percentOctets (utf8Octets ((c - 0xD800) * 0x400 + (d - 0xDC00) + 0x10000)))
            (encodeURIComponent rest2)
        else .error .URIError
      | [] => .error .URIError
    else prependTo (percentOctets (utf8Octets c)) (encodeURIComponent rest)

/-- The value of a hexadecimal digit. -/
def hexValue (c : Nat) : Option Nat :=
  if 0x30 ≤ c ∧ c ≤ 0x39 then some (c - 0x30)
  else if 0x41 ≤ c ∧ c ≤ 0x46 then some (c - 0x41 + 10)
  else if 0x61 ≤ c ∧ c ≤ 0x66 then some (c - 0x61 + 10)
  else none

/-- The octet written by two hexadecimal digits. -/
def parseHexOctet (h1 h2 : Nat) : Option Nat :=
  match hexValue h1, hexValue h2 with
  | some a, some b => some (16 * a + b)
  | _, _ => none

/-- A continuation octet `%XX` with `XX` in `80..BF`, as its six payload bits. -/
def continuationBits (p h1 h2 : Nat) : Option Nat :=
  if p = 0x25 then
    match parseHexOctet h1 h2 with
    | some b => if 0x80 ≤ b ∧ b ≤ 0xBF then some (b - 0x80) else none
    | none => none
  else none

/-- A decoded code point is kept when its encoding had the shortest length and it is a
Unicode scalar value. -/
def validCodePoint (least cp : Nat) : Bool :=
  least ≤ cp && cp ≤ 0x10FFFF && !(0xD800 ≤ cp && cp ≤ 0xDFFF)

/-- The abstract operation `Decode` with the empty reserved set of `decodeURIComponent`:
a `%` that does not start a well-formed escape of a UTF-8 sequence raises `URIError`. -/
def decodeURIComponent : JSString → Except JSError JSString
  | [] => .ok []
  | c :: rest =>
    if c ≠ 0x25 then prependTo [c] (decodeURIComponent rest)
    else
      match rest with
      | h1 :: h2 :: r1 =>
        match parseHexOctet h1 h2 with
        | none => .error .URIError
        | some b =>
          if b < 0x80 then prependTo [b] (decodeURIComponent r1)
          else if b < 0xC0 then .error .URIError
          else if b < 0xE0 then
            match r1 with
            | p1 :: a1 :: a2 :: r2 =>
              match continuationBits p1 a1 a2 with
              | some x =>
                let cp := (b - 0xC0) * 0x40 + x
                if validCodePoint 0x80 cp then
                  prependTo (utf16EncodeCodePoint cp) (decodeURIComponent r2)
                else .error .URIError
              | none => .error .URIError
            | _ => .error .URIError
          else if b < 0xF0 then
            match r1 with
            | p1 :: a1 :: a2 :: p2 :: b1 :: b2 :: r2 =>
              match continuationBits p1 a1 a2, continuationBits p2 b1 b2 with
              | some x, some y =>
                let cp := (b - 0xE0) * 0x1000 + x * 0x40 + y
                if validCodePoint 0x800 cp then
                  prependTo (utf16EncodeCodePoint cp) (decodeURIComponent r2)
                else .error .URIError
              | _, _ => .error .URIError
            | _ => .error .URIError
          else if b < 0xF8 then
            match r1 with
            | p1 :: a1 :: a2 :: p2 :: b1 :: b2 :: p3 :: c1 :: c2 :: r2 =>
              match continuationBits p1 a1 a2, continuationBits p2 b1 b2,
                  continuationBits p3 c1 c2 with
              | some x, some y, some z =>
                let cp := (b - 0xF0) * 0x40000 + x * 0x1000 + y * 0x40 + z
                if validCodePoint 0x10000 cp then
                  prependTo (utf16EncodeCodePoint cp) (decodeURIComponent r2)
                else .error .URIError
              | _, _, _ => .error .URIError
            | _ => .error .URIError
          else .error .URIError
      | _ => .error .URIError

/-- The two host functions the code calls. -/
structure Platform where
  encodeURIComponent : JSString → Except JSError JSString
  decodeURIComponent : JSString → Except JSError JSString

/-- The host that follows ECMA-262. -/
def ecma : Platform := ⟨encodeURIComponent, decodeURIComponent⟩

/-! ## Property access -/

/-- The value stored under key `k`, when there is one. -/
def lookupKey (k : JSString) : Props → Option JSValue
  | [] => none
  | (k1, v) :: rest => if k1 = k then some v else lookupKey k rest

/-- The assignment `o[k] = v` on the property list of an object: the value under an
existing key is replaced in place, a new key is added at the end.  (JavaScript lists a
new integer-like key before the other keys; the code never enumerates an object it has
written to, it only reads it key by key.)  This is the assignment to an ordinary data
property; it does not describe `o.__proto__ = v`, nor `o.length = v` on an array. -/
def setEntry (k : JSString) (v : JSValue) : Props → Props
  | [] => [(k, v)]
  | (k1, v1) :: rest => if k1 = k then (k1, v) :: rest else (k1, v1) :: setEntry k v rest

/-- The decimal form of an array index, as a property key. -/
def indexKey (i : Nat) : JSString := utf16 (Nat.repr i)

/-- The indexed properties of a string primitive, from index `i` on. -/
def stringEntries (i : Nat) : JSString → Props
  | [] => []
  | c :: rest => (indexKey i, .string [c]) :: stringEntries (i + 1) rest

/-- The indexed properties of an array literal, from index `i` on. -/
def arrayEntries (i : Nat) : List JSValue → Props
  | [] => []
  | v :: rest => (indexKey i, v) :: arrayEntries (i + 1) rest

/-- The array literal with the given elements. -/
def arrayOf (items : List JSValue) : JSValue := .object .array (arrayEntries 0 items)

/-- The pairs `(k, o[k])` for `k` in `Object.keys(o)`; `Object.keys` raises `TypeError` on
`undefined` and `null`. -/
def ownEntries : JSValue → Except JSError Props
  | .undefined => .error .TypeError
  | .null => .error .TypeError
  | .bool _ => .ok []
  | .number _ => .ok []
  | .string s => .ok (stringEntries 0 s)
  | .object _ props => .ok props

/-! ## `String.prototype.toRFC3986` -/

/-- The method `Number.prototype.toString(16)` on a character code. -/
def toStringHex (n : Nat) : JSString := (Nat.toDigits 16 n).map Char.toNat

/-- The call `tmp.replace(/[!'()*]/g, c => "%" + c.charCodeAt(0).toString(16))`. -/
def replaceReserved : JSString → JSString
  | [] => []
  | c :: rest =>
    if c = 0x21 ∨ c = 0x27 ∨ c = 0x28 ∨ c = 0x29 ∨ c = 0x2A then
      0x25 :: toStringHex c ++ replaceReserved rest
    else c :: replaceReserved rest

/-- The method `String.prototype.toRFC3986`, called on the string `str`: the body
evaluates `encodeURIComponent(this)`, evaluates `tmp.replace(...)` as an expression
statement, and ends without a `return`, so a call that does not throw yields `undefined`. -/
def toRFC3986 (P : Platform) (str : JSString) : Except JSError JSValue :=
  match P.encodeURIComponent str with
  | .error e => .error e
  | .ok tmp =>
    let _ := replaceReserved tmp
    .ok .undefined

/-- The call `str.toRFC3986()` on an arbitrary value: only strings have the method, on any
other value the call raises `TypeError`. -/
def callToRFC3986 (P : Platform) : JSValue → Except JSError JSValue
  | .string s => toRFC3986 P s
  | _ => .error .TypeError

/-! ## The stateful methods of `ShareUtils` -/

/-- What a method call leaves behind: its completion (a value or a thrown error) and the
instance's own fields after the call. -/
structure Outcome (α : Type) where
  result : Except JSError α
  self : Props

/-- The method `_isEncoded(str)`: stores `str.toRFC3986()` in `this.str`, then compares
`decodeURIComponent(str)` with `str`.  Only a string has the method `toRFC3986`; on any
other value the first statement raises `TypeError`. -/
def _isEncoded (P : Platform) (str : JSValue) (self : Props) : Outcome Bool :=
  match str with
  | .string s =>
    match toRFC3986 P s with
    | .error e => ⟨.error e, self⟩
    | .ok v =>
      let self1 := setEntry (utf16 "str") v self
      match P.decodeURIComponent s with
      | .error e => ⟨.error e, self1⟩
      | .ok d => ⟨.ok (decide (d ≠ s)), self1⟩
  | _ => ⟨.error .TypeError, self⟩

/-- The method `_encode(str)`: `undefined`, `null` and a string that `_isEncoded` accepts
are returned as they are, anything else is replaced by `str.toRFC3986()`. -/
def _encode (P : Platform) (str : JSValue) (self : Props) : Outcome JSValue :=
  match str with
  | .undefined => ⟨.ok str, self⟩
  | .null => ⟨.ok str, self⟩
  | _ =>
    let o := _isEncoded P str self
    match o.result with
    | .error e => ⟨.error e, o.self⟩
    | .ok true => ⟨.ok str, o.self⟩
    | .ok false => ⟨callToRFC3986 P str, o.self⟩

/-- The conversion a template literal applies to an interpolated value.  `popup`
interpolates what `_encode` returned: a string, `undefined` or `null`; the object case
is the default form of a plain object. -/
def templateToString : JSValue → JSString
  | .undefined => utf16 "undefined"
  | .null => utf16 "null"
  | .bool true => utf16 "true"
  | .bool false => utf16 "false"
  | .number n => utf16 (toString n)
  | .string s => s
  | .object _ _ => utf16 "[object Object]"

/-- The method `Array.prototype.join` on an array of strings. -/
def joinWith (sep : JSString) : List JSString → JSString
  | [] => []
  | [x] => x
  | x :: y :: rest => x ++ sep ++ joinWith sep (y :: rest)

/-- The loop of `popup` that fills `results` with one `k=value` string per key. -/
def queryPairs (P : Platform) : Props → Props → Outcome (List JSString)
  | [], self => ⟨.ok [], self⟩
  | (k, v) :: rest, self =>
    let o := _encode P v self
    match o.result with
    | .error e => ⟨.error e, o.self⟩
    | .ok ev =>
      let o2 := queryPairs P rest o.self
      match o2.result with
      | .error e => ⟨.error e, o2.self⟩
      | .ok rs => ⟨.ok ((k ++ utf16 "=" ++ templateToString ev) :: rs), o2.self⟩

/-- The host's `screen` object: width and height, whole numbers of pixels. -/
structure Screen where
  width : Nat
  height : Nat

/-- The value `t / 2` printed as JavaScript prints a number (exact below `2 ^ 53`). -/
def halfToString (t : Int) : JSString :=
  if t % 2 = 0 then utf16 (toString (t / 2))
  else (if t < 0 then utf16 "-" else []) ++ utf16 (toString (t.natAbs / 2)) ++ utf16 ".5"

/-- The three arguments of a call to `window.open`. -/
structure WindowOpen where
  url : JSString
  target : JSString
  features : JSString

/-- The feature string of `popup`, a template literal that spans eleven lines. -/
def popupFeatures (left top width height : JSString) : JSString :=
  utf16 "\n        toolbar=no,\n        location=no,\n        status=no,\n        menubar=no,\n        scrollbars=yes,\n        resizable=yes,\n        left="
    ++ left ++ utf16 ",\n        top=" ++ top ++ utf16 ",\n        width=" ++ width
    ++ utf16 ",\n        height=" ++ height ++ utf16 "\n      "

/-- The method `popup(url, params = {})`: the call to `window.open` it makes, or the error
raised before that call.  The numbers `screen.height / 2 - popup.height / 2` and
`screen.width / 2 - popup.width / 2` are multiples of one half, computed exactly; they are
kept as their count of halves, `screen.height - popup.height` and
`screen.width - popup.width`, which `halfToString` prints. -/
def popup (P : Platform) (screen : Screen) (url : JSString) (params : JSValue) (self : Props) :
    Outcome WindowOpen :=
  let params := match params with
    | .undefined => emptyObject
    | p => p
  let width : Nat := 500
  let height : Nat := 350
  let top := halfToString ((screen.height : Int) - height)
  let left := halfToString ((screen.width : Int) - width)
  match ownEntries params with
  | .error e => ⟨.error e, self⟩
  | .ok entries =>
    let o := queryPairs P entries self
    match o.result with
    | .error e => ⟨.error e, o.self⟩
    | .ok results =>
      let qs := joinWith (utf16 "&") results
      let qs := if qs = [] then qs else utf16 "?" ++ qs
      ⟨.ok ⟨url ++ qs, utf16 "targetWindow",
        popupFeatures left top (utf16 (toString width)) (utf16 (toString height))⟩, o.self⟩

/-! ## `_merge` -/

/-- The loop of `_merge` over a source whose property values are all scalars (a string
primitive and its characters): every value is assigned to the target. -/
def assignAll : JSValue → Props → Except JSError JSValue
  | target, [] => .ok target
  | .object cls tprops, (property, sourceProperty) :: rest =>
    assignAll (.object cls (setEntry property sourceProperty tprops)) rest
  | _, _ :: _ => .error .TypeError

mutual
/-- The two-argument call `this._merge(target, source)`: a target that is not
`typeof 'object'` is replaced by a fresh empty object, then the enumerable properties of
`source` are visited in order.  Each iteration starts with the call
`source.hasOwnProperty(property)`.  When the source has an own property named
`hasOwnProperty`, that property is what the call finds; its value is data, not a function,
so the first iteration raises `TypeError` before anything is read or written.  Otherwise
the call reaches `Object.prototype.hasOwnProperty`, which answers `true` for every
enumerated property, all of them being own properties, and `source[property]` is the
value listed with the key.  A source that is `undefined`, `null`, a number or a boolean
has nothing to enumerate. -/
def merge2 : JSValue → JSValue → Except JSError JSValue
  | target, .object _ props =>
    match lookupKey (utf16 "hasOwnProperty") props with
    | some _ => .error .TypeError
    | none => mergeProps (if typeofIsObject target then target else emptyObject) props
  | target, .string s =>
    assignAll (if typeofIsObject target then target else emptyObject) (stringEntries 0 s)
  | target, _ => .ok (if typeofIsObject target then target else emptyObject)
/-- The `for ... in` loop of `_merge` over the properties of `source` still to visit, once
the call `source.hasOwnProperty` is known to succeed.  The target is an object or `null`
here; reading or writing a property of `null` raises `TypeError`.  The accesses
`target[property]` are those of an ordinary data property (see `setEntry`). -/
def mergeProps : JSValue → List (JSString × JSValue) → Except JSError JSValue
  | target, [] => .ok target
  | .object cls tprops, (property, sourceProperty) :: rest =>
    if typeofIsObject sourceProperty then
      match merge2 ((lookupKey property tprops).getD .undefined) sourceProperty with
      | .error e => .error e
      | .ok merged => mergeProps (.object cls (setEntry property merged tprops)) rest
    else mergeProps (.object cls (setEntry property sourceProperty tprops)) rest
  | _, _ :: _ => .error .TypeError
end

/-- The method `_merge(target, source, ...more)`.  The recursive calls of the first loop
pass two arguments, so their second loop does not run.  With further arguments the second
loop calls the free identifier `_merge`, which no scope of the file binds (a method is
not a variable), so its first iteration raises `ReferenceError`. -/
def _merge (target source : JSValue) (more : List JSValue) : Except JSError JSValue :=
  match merge2 target source with
  | .error e => .error e
  | .ok merged =>
    match more with
    | [] => .ok merged
    | _ :: _ => .error .ReferenceError

/-! ## Shapes of values -/

mutual
/-- The value holds no `null`, at any depth. -/
def nullFree : JSValue → Bool
  | .null => false
  | .object _ props => nullFreeProps props
  | _ => true
/-- No property value holds a `null`, at any depth. -/
def nullFreeProps : List (JSString × JSValue) → Bool
  | [] => true
  | (_, v) :: rest => nullFree v && nullFreeProps rest
end

mutual
/-- The value holds no array, at any depth. -/
def arrayFree : JSValue → Bool
  | .object .array _ => false
  | .object .plain props => arrayFreeProps props
  | _ => true
/-- No property value holds an array, at any depth. -/
def arrayFreeProps : List (JSString × JSValue) → Bool
  | [] => true
  | (_, v) :: rest => arrayFree v && arrayFreeProps rest
end

mutual
/-- The keys of every object in the value are pairwise distinct, as the keys of a
JavaScript object are. -/
def uniqueKeys : JSValue → Bool
  | .object _ props => uniqueKeysProps props
  | _ => true
/-- The keys of the list are pairwise distinct, and so are those of every object below. -/
def uniqueKeysProps : List (JSString × JSValue) → Bool
  | [] => true
  | (k, v) :: rest => (lookupKey k rest).isNone && uniqueKeys v && uniqueKeysProps rest
end

mutual
/-- No object in the value, at any depth, has a property named by one of the given keys. -/
def avoidsKeys (keys : List JSString) : JSValue → Bool
  | .object _ props => avoidsKeysProps keys props
  | _ => true
/-- No property of the list, and no object below, is named by one of the given keys. -/
def avoidsKeysProps (keys : List JSString) : List (JSString × JSValue) → Bool
  | [] => true
  | (k, v) :: rest => decide (k ∉ keys) && avoidsKeys keys v && avoidsKeysProps keys rest
end

/-- The keys of a source that reach past its data: `hasOwnProperty` shadows the method
that `_merge` calls on the source, and `__proto__` names the prototype, not a property. -/
def shadowingKeys : List JSString := [utf16 "hasOwnProperty", utf16 "__proto__"]

/-- The keys of a source under which `_merge` does not make an ordinary property access on
every target: the shadowing keys, and `length`, which is the size of a target array. -/
def exoticKeys : List JSString := [utf16 "hasOwnProperty", utf16 "__proto__", utf16 "length"]

mutual
/-- The value with every array in it replaced by the plain object that has the same
keys and values. -/
def toPlain : JSValue → JSValue
  | .object _ props => .object .plain (toPlainProps props)
  | v => v
/-- The property list with every array in it replaced by a plain object. -/
def toPlainProps : List (JSString × JSValue) → List (JSString × JSValue)
  | [] => []
  | (k, v) :: rest => (k, toPlain v) :: toPlainProps rest
end

mutual
/-- Structural deep equality: the same primitive, or two objects of the same class with
the same keys, in any order, and deep-equal values under each key. -/
def deepEqual : JSValue → JSValue → Bool
  | .undefined, .undefined => true
  | .null, .null => true
  | .bool a, .bool b => a == b
  | .number a, .number b => a == b
  | .string a, .string b => a == b
  | .object c1 p1, .object c2 p2 => c1 == c2 && p1.length == p2.length && deepEqualProps p1 p2
  | _, _ => false
/-- Every property of the first list has a deep-equal value under its key in the second. -/
def deepEqualProps : List (JSString × JSValue) → List (JSString × JSValue) → Bool
  | [], _ => true
  | (k, v) :: rest, other =>
    (match lookupKey k other with
      | some w => deepEqual v w
      | none => false) && deepEqualProps rest other
end

/-! ## `_objToArray` -/

/-- The properties a `for ... in` loop over `obj` visits, each with the value `obj[k]`:
the characters of a string, the enumerable properties of an object, and nothing for
`undefined`, `null`, a number or a boolean. -/
def forInEntries : JSValue → Props
  | .string s => stringEntries 0 s
  | .object _ props => props
  | _ => []

/-- The method `_objToArray(obj)`: the array of the visited values `obj[k]` for which
`typeof obj[k] === 'object'` holds, in the order visited. -/
def _objToArray (obj : JSValue) : JSValue :=
  arrayOf (((forInEntries obj).map Prod.snd).filter typeofIsObject)

/-! ## Reading a printed number -/

/-- The value of a decimal digit. -/
def digitValue (c : Nat) : Option Nat :=
  if 0x30 ≤ c ∧ c ≤ 0x39 then some (c - 0x30) else none

/-- Twice the number written by decimal digits with an optional fraction `.5`, read after
the digits that gave `acc`. -/
def readHalves (acc : Nat) : JSString → Option Nat
  | [] => some (2 * acc)
  | c :: rest =>
    match digitValue c with
    | some d => readHalves (acc * 10 + d) rest
    | none => if c = 0x2E ∧ rest = [0x35] then some (2 * acc + 1) else none

/-- Twice the number a decimal numeral denotes: an optional `-`, digits, an optional
fraction `.5`. -/
def twiceValue : JSString → Option Int
  | [] => none
  | c :: rest =>
    if c = 0x2D then (readHalves 0 rest).map (fun (n : Nat) => -(n : Int))
    else (readHalves 0 (c :: rest)).map (fun (n : Nat) => (n : Int))

/-! ## Keys that a merge has settled -/

/-- A key of the source is settled in a property list when the list holds under it what
a further merge of the source's value would write: the scalar itself, or a value that
merging the nested source value into it gives back. -/
def Settled (k : JSString) (v : JSValue) (rp : Props) : Prop :=
  (typeofIsObject v = true → ∃ m, lookupKey k rp = some m ∧ merge2 m v = .ok m) ∧
  (typeofIsObject v = false → lookupKey k rp = some v)

/-! ## Theorems: the encode guard and `toRFC3986` -/

/-- An unescaped character is an ASCII character, so it is no surrogate. -/
theorem isUnescaped_not_surrogate (c : Nat) (h : isUnescaped c = true) :
    isLowSurrogate c = false ∧ isHighSurrogate c = false := by
  have hc : c ≤ 0x7E := by
    unfold isUnescaped at h
    simp only [Bool.or_eq_true, Bool.and_eq_true, decide_eq_true_eq, beq_iff_eq] at h
    omega
  constructor
  · unfold isLowSurrogate
    rw [Bool.and_eq_false_iff]
    left
    rw [decide_eq_false_iff_not]
    omega
  · unfold isHighSurrogate
    rw [Bool.and_eq_false_iff]
    left
    rw [decide_eq_false_iff_not]
    omega


/-- Putting a piece before a result succeeds exactly when the result is one. -/
theorem prependTo_ok_iff (S : JSString) (x : Except JSError JSString) :
    (∃ e, prependTo S x = .ok e) ↔ ∃ e, x = .ok e := by
  cases x <;> simp [prependTo]

/-- The encoder of ECMA-262 accepts exactly the well-formed strings. -/
theorem encodeURIComponent_ok_iff (s : JSString) :
    (∃ e, encodeURIComponent s = .ok e) ↔ isWellFormed s = true := by
  induction s using encodeURIComponent.induct with
  | case1 => simp [encodeURIComponent, isWellFormed]
  | case2 c rest hc ih =>
    obtain ⟨h1, h2⟩ := isUnescaped_not_surrogate c hc
    rw [encodeURIComponent.eq_def, isWellFormed.eq_def]
    simpa [hc, h1, h2, prependTo_ok_iff] using ih
  | case3 c rest hc hl =>
    rw [encodeURIComponent.eq_def, isWellFormed.eq_def]
    simp [hc, hl]
  | case4 c hc hl hh d rest2 hd ih =>
    rw [encodeURIComponent.eq_def, isWellFormed.eq_def]
    simpa [hc, hl, hh, hd, prependTo_ok_iff] using ih
  | case5 c hc hl hh d rest2 hd =>
    rw [encodeURIComponent.eq_def, isWellFormed.eq_def]
    simp [hc, hl, hh, hd]
  | case6 c hc hl hh =>
    rw [encodeURIComponent.eq_def, isWellFormed.eq_def]
    simp [hc, hl, hh]
  | case7 c rest hc hl hh ih =>
    rw [encodeURIComponent.eq_def, isWellFormed.eq_def]
    simpa [hc, hl, hh, prependTo_ok_iff] using ih

/-- An exception behind a prepended piece is the exception of the rest. -/
theorem prependTo_error (S : JSString) (x : Except JSError JSString) (e : JSError)
    (h : prependTo S x = .error e) : x = .error e := by
  cases x with
  | ok R => simp [prependTo] at h
  | error e2 => simpa [prependTo] using h

set_option smartUnfolding false in
/-- One step of `Decode`: the first clause of the definition on a non-empty string. -/
theorem decodeURIComponent_cons (c : Nat) (rest : JSString) : decodeURIComponent (c :: rest) =
    if c ≠ 0x25 then prependTo [c] (decodeURIComponent rest)
    else
      match rest with
      | h1 :: h2 :: r1 =>
        match parseHexOctet h1 h2 with
        | none => .error .URIError
        | some b =>
          if b < 0x80 then prependTo [b] (decodeURIComponent r1)
          else if b < 0xC0 then .error .URIError
          else if b < 0xE0 then
            match r1 with
            | p1 :: a1 :: a2 :: r2 =>
              match continuationBits p1 a1 a2 with
              | some x =>
                let cp := (b - 0xC0) * 0x40 + x
                if validCodePoint 0x80 cp then
                  prependTo (utf16EncodeCodePoint cp) (decodeURIComponent r2)
                else .error .URIError
              | none => .error .URIError
            | _ => .error .URIError
          else if b < 0xF0 then
            match r1 with
            | p1 :: a1 :: a2 :: p2 :: b1 :: b2 :: r2 =>
              match continuationBits p1 a1 a2, continuationBits p2 b1 b2 with
              | some x, some y =>
                let cp := (b - 0xE0) * 0x1000 + x * 0x40 + y
                if validCodePoint 0x800 cp then
                  prependTo (utf16EncodeCodePoint cp) (decodeURIComponent r2)
                else .error .URIError
              | _, _ => .error .URIError
            | _ => .error .URIError
          else if b < 0xF8 then
            match r1 with
            | p1 :: a1 :: a2 :: p2 :: b1 :: b2 :: p3 :: c1 :: c2 :: r2 =>
              match continuationBits p1 a1 a2, continuationBits p2 b1 b2,
                  continuationBits p3 c1 c2 with
              | some x, some y, some z =>
                let cp := (b - 0xF0) * 0x40000 + x * 0x1000 + y * 0x40 + z
                if validCodePoint 0x10000 cp then
                  prependTo (utf16EncodeCodePoint cp) (decodeURIComponent r2)
                else .error .URIError
              | _, _, _ => .error .URIError
            | _ => .error .URIError
          else .error .URIError
      | _ => .error .URIError := by
  rcases rest with _ | ⟨h1, _ | ⟨h2, r1⟩⟩
  · rfl
  · rfl
  rcases r1 with _ | ⟨p1, _ | ⟨a1, _ | ⟨a2, r2⟩⟩⟩
  · rfl
  · rfl
  · rfl
  rcases r2 with _ | ⟨p2, _ | ⟨b1, _ | ⟨b2, r3⟩⟩⟩
  · rfl
  · rfl
  · rfl
  rcases r3 with _ | ⟨p3, _ | ⟨c1, _ | ⟨c2, r4⟩⟩⟩
  · rfl
  · rfl
  · rfl
  rfl

/-- The decoder of ECMA-262 raises no other exception than `URIError`. -/
theorem decodeURIComponent_error_of_length : ∀ (n : Nat) (s : JSString), s.length ≤ n →
    ∀ e, decodeURIComponent s = .error e → e = .URIError := by
  intro n
  induction n with
  | zero =>
    intro s hs e h
    cases s with
    | nil => cases h
    | cons c rest => simp at hs
  | succ n ih =>
    intro s hs e h
    cases s with
    | nil => cases h
    | cons c rest =>
      rw [decodeURIComponent_cons] at h
      repeat' split at h
      all_goals try dsimp only at h
      repeat' split at h
      all_goals first
        | exact (Except.error.inj h).symm
        | exact ih _ (by simp only [List.length_cons] at hs; omega) e (prependTo_error _ _ _ h)

/-- The decoder of ECMA-262 raises no other exception than `URIError`. -/
theorem decodeURIComponent_error (s : JSString) (e : JSError)
    (h : decodeURIComponent s = .error e) : e = .URIError :=
  decodeURIComponent_error_of_length s.length s (Nat.le_refl _) e h

/-- The encoder of ECMA-262 raises no other exception than `URIError`. -/
theorem encodeURIComponent_error (s : JSString) :
    ∀ e, encodeURIComponent s = .error e → e = .URIError := by
  induction s using encodeURIComponent.induct with
  | case1 => intro e h; simp [encodeURIComponent] at h
  | case2 c rest hc ih =>
    intro e h
    rw [encodeURIComponent.eq_def] at h
    simp only [hc, if_true] at h
    exact ih e (prependTo_error _ _ _ h)
  | case3 c rest hc hl =>
    intro e h
    rw [encodeURIComponent.eq_def] at h
    simp only [hc, hl, if_true, Bool.false_eq_true, if_false, Except.error.injEq] at h
    exact h.symm
  | case4 c hc hl hh d rest2 hd ih =>
    intro e h
    rw [encodeURIComponent.eq_def] at h
    simp only [hc, hl, hh, hd, if_true, Bool.false_eq_true, if_false] at h
    exact ih e (prependTo_error _ _ _ h)
  | case5 c hc hl hh d rest2 hd =>
    intro e h
    rw [encodeURIComponent.eq_def] at h
    simp only [hc, hl, hh, hd, if_true, Bool.false_eq_true, if_false, Except.error.injEq] at h
    exact h.symm
  | case6 c hc hl hh =>
    intro e h
    rw [encodeURIComponent.eq_def] at h
    simp only [hc, hl, hh, if_true, Bool.false_eq_true, if_false, Except.error.injEq] at h
    exact h.symm
  | case7 c rest hc hl hh ih =>
    intro e h
    rw [encodeURIComponent.eq_def] at h
    simp only [hc, hl, hh, if_true, Bool.false_eq_true, if_false] at h
    exact ih e (prependTo_error _ _ _ h)

/-- On any host, a call `str.toRFC3986()` that does not throw yields `undefined`. -/
theorem toRFC3986_eq (P : Platform) (s : JSString) :
    toRFC3986 P s =
      match P.encodeURIComponent s with
      | .ok _ => .ok .undefined
      | .error e => .error e := by
  unfold toRFC3986
  cases P.encodeURIComponent s <;> rfl

/-- What `_encode` does with a string, in terms of the host's two functions: it throws what
the encoder or the decoder throws, returns the string when decoding changes it, and returns
`undefined` otherwise. -/
theorem encode_string_result (P : Platform) (s : JSString) (self : Props) :
    (_encode P (.string s) self).result =
      match P.encodeURIComponent s, P.decodeURIComponent s with
      | .error e, _ => .error e
      | .ok _, .error e => .error e
      | .ok _, .ok d => if d ≠ s then .ok (.string s) else .ok .undefined := by
  simp only [_encode, _isEncoded, callToRFC3986, toRFC3986_eq]
  cases he : P.encodeURIComponent s with
  | error e => simp
  | ok t =>
    cases hd : P.decodeURIComponent s with
    | error e => simp
    | ok d => by_cases h : d = s <;> simp [h]

/-- C1, at the claim's own example: for `popup("http://example.com", ...)` with the
parameters `a: "1"` and `b: "two words"`, the target URL handed to `window.open` is
`http://example.com?a=undefined&b=undefined` on every screen, where the claim has
`http://example.com?a=1&b=two%20words`: `_encode` returns what `toRFC3986` returns, and
`toRFC3986` has no `return`. -/
theorem popup_example_target_url (screen : Screen) (self : Props) :
    (popup ecma screen (utf16 "http://example.com")
        (.object .plain [(utf16 "a", .string (utf16 "1")),
          (utf16 "b", .string (utf16 "two words"))]) self).result.map WindowOpen.url
      = .ok (utf16 "http://example.com?a=undefined&b=undefined") := rfl

/-- C2: on every host and screen and for every base url, `popup` called without `params`
(the default `{}` applies) or with an empty mapping reaches `window.open`, and the target
URL is `url` itself, with no `?` and no query string. -/
theorem popup_without_params_opens_url (P : Platform) (screen : Screen) (url : JSString)
    (cls : ObjClass) (self : Props) :
    (popup P screen url .undefined self).result.map WindowOpen.url = .ok url ∧
    (popup P screen url (.object cls []) self).result.map WindowOpen.url = .ok url := by
  constructor <;>
    simp [popup, ownEntries, emptyObject, queryPairs, joinWith, Except.map]

/-- C3, at the claim's own example: `"a b"` is not encoded (decoding gives it back) and its
standard encoding is `"a%20b"`, yet `_encode("a b")` returns `undefined`, the value of a
`toRFC3986` that ends without a `return`. -/
theorem encode_plain_string_returns_undefined (self : Props) :
    decodeURIComponent (utf16 "a b") = .ok (utf16 "a b") ∧
    encodeURIComponent (utf16 "a b") = .ok (utf16 "a%20b") ∧
    (_encode ecma (.string (utf16 "a b")) self).result = .ok .undefined :=
  ⟨rfl, rfl, rfl⟩

/-- C4 fails as stated: the value `"%20"` followed by the lone surrogate `U+D800` holds an
escape sequence and decodes to something else, yet `_encode` does not return it: the call
`str.toRFC3986()` that opens `_isEncoded` makes the encoder raise `URIError`. -/
theorem encode_escaped_lone_surrogate_throws :
    decodeURIComponent [0x25, 0x32, 0x30, 0xD800] = .ok [0x20, 0xD800] ∧
    (_encode ecma (.string [0x25, 0x32, 0x30, 0xD800]) []).result = .error .URIError :=
  ⟨rfl, rfl⟩

/-- C4, amended: for every well-formed string `value` (no unpaired surrogate) whose
percent-decoding succeeds and differs from `value`, `_encode(value)` returns `value`
unchanged.  A decoding that differs implies that `value` holds an escape sequence. -/
theorem encode_keeps_encoded_value (value d : JSString) (self : Props)
    (hwf : isWellFormed value = true) (hd : decodeURIComponent value = .ok d)
    (hne : d ≠ value) :
    (_encode ecma (.string value) self).result = .ok (.string value) := by
  obtain ⟨e, he⟩ := (encodeURIComponent_ok_iff value).mpr hwf
  rw [encode_string_result]
  simp [ecma, he, hd, hne]

/-- C4, amended, at `"a%20b"`, which decodes to `"a b"`. -/
theorem encode_keeps_encoded_value_witness :
    (_encode ecma (.string (utf16 "a%20b")) []).result = .ok (.string (utf16 "a%20b")) :=
  encode_keeps_encoded_value (utf16 "a%20b") (utf16 "a b") [] rfl rfl (by decide)

/-- C5: on every host, whatever its encoder and decoder do, and for every instance,
`_encode(undefined)` returns `undefined` and `_encode(null)` returns `null`; the call
does not throw and leaves the instance as it was. -/
theorem encode_undefined_null (P : Platform) (self : Props) :
    _encode P .undefined self = ⟨.ok .undefined, self⟩ ∧
    _encode P .null self = ⟨.ok .null, self⟩ :=
  ⟨rfl, rfl⟩

/-- C6 fails as stated: `_encode("100%")` and `_encode("%zz")` raise `URIError`, thrown by
`decodeURIComponent` inside `_isEncoded`. -/
theorem encode_malformed_percent_throws :
    (_encode ecma (.string (utf16 "100%")) []).result = .error .URIError ∧
    (_encode ecma (.string (utf16 "%zz")) []).result = .error .URIError :=
  ⟨rfl, rfl⟩

/-- C6, amended: for every string `s`, `_encode(s)` returns normally exactly when `s` is
well-formed (no unpaired surrogate) and `decodeURIComponent` accepts `s`; for every other
string it raises `URIError`. -/
theorem encode_returns_iff (s : JSString) (self : Props) :
    ((∃ v, (_encode ecma (.string s) self).result = .ok v) ↔
      (isWellFormed s = true ∧ ∃ d, decodeURIComponent s = .ok d)) ∧
    (¬ (isWellFormed s = true ∧ ∃ d, decodeURIComponent s = .ok d) →
      (_encode ecma (.string s) self).result = .error .URIError) := by
  rw [← encodeURIComponent_ok_iff, encode_string_result]
  simp only [ecma]
  cases he : encodeURIComponent s with
  | error e =>
    have := encodeURIComponent_error s e he
    subst this
    simp
  | ok t =>
    cases hd : decodeURIComponent s with
    | error e =>
      have := decodeURIComponent_error s e hd
      subst this
      simp
    | ok d => by_cases h : d = s <;> simp [h]

/-- C6, amended, at `"a%20b"` and at `"a b"`, where both calls return, and at the
malformed `"%zz"` and the lone surrogate `U+D800`, where the call raises `URIError`. -/
theorem encode_returns_iff_witness :
    (∃ v, (_encode ecma (.string (utf16 "a%20b")) []).result = .ok v) ∧
    (∃ v, (_encode ecma (.string (utf16 "a b")) []).result = .ok v) ∧
    (_encode ecma (.string (utf16 "%zz")) []).result = .error .URIError ∧
    (_encode ecma (.string [0xD800]) []).result = .error .URIError :=
  ⟨(encode_returns_iff (utf16 "a%20b") []).1.mpr ⟨rfl, _, rfl⟩,
   (encode_returns_iff (utf16 "a b") []).1.mpr ⟨rfl, _, rfl⟩,
   (encode_returns_iff (utf16 "%zz") []).2 (fun h => h.2.elim (fun _ hd =>
      Except.noConfusion
        ((rfl : decodeURIComponent (utf16 "%zz") = .error .URIError).symm.trans hd))),
   (encode_returns_iff [0xD800] []).2 (fun h => absurd h.1 (by decide))⟩

/-- C7 fails on the code: on every host and for every string `s`, `s.toRFC3986()` never
returns a string; a call that does not throw returns `undefined`, since the encoded and
the replaced string are computed and dropped.  At `"a!"` the result is `undefined` where
the claim has `"a%21"`. -/
theorem toRFC3986_never_returns_string (P : Platform) (s : JSString) :
    (∀ v, toRFC3986 P s ≠ .ok (.string v)) ∧
    toRFC3986 ecma (utf16 "a!") = .ok .undefined ∧
    replaceReserved (utf16 "a!") = utf16 "a%21" := by
  refine ⟨?_, rfl, rfl⟩
  intro v
  rw [toRFC3986_eq]
  cases P.encodeURIComponent s <;> simp

/-! ## Theorems: `_merge` -/

/-- Reading a key right after writing it gives the written value. -/
theorem lookupKey_setEntry_same (k : JSString) (v : JSValue) (ps : Props) :
    lookupKey k (setEntry k v ps) = some v := by
  induction ps with
  | nil => simp [setEntry, lookupKey]
  | cons p rest ih =>
    obtain ⟨k1, v1⟩ := p
    by_cases h : k1 = k <;> simp [setEntry, lookupKey, h, ih]

/-- Writing a key leaves what is read under any other key. -/
theorem lookupKey_setEntry_other (k k2 : JSString) (v : JSValue) (ps : Props) (h : k2 ≠ k) :
    lookupKey k2 (setEntry k v ps) = lookupKey k2 ps := by
  induction ps with
  | nil => simp [setEntry, lookupKey, Ne.symm h]
  | cons p rest ih =>
    obtain ⟨k1, v1⟩ := p
    by_cases h1 : k1 = k
    · subst h1
      simp [setEntry, lookupKey, Ne.symm h]
    · by_cases h2 : k1 = k2
      · subst h2
        simp [setEntry, lookupKey, h1]
      · simp [setEntry, lookupKey, h1, h2, ih]

/-- Writing a key the object does not have adds the property at the end. -/
theorem setEntry_of_absent (k : JSString) (v : JSValue) (ps : Props)
    (h : lookupKey k ps = none) : setEntry k v ps = ps ++ [(k, v)] := by
  induction ps with
  | nil => simp [setEntry]
  | cons p rest ih =>
    obtain ⟨k1, v1⟩ := p
    by_cases h1 : k1 = k
    · simp [lookupKey, h1] at h
    · simp only [lookupKey, h1, if_false] at h
      simp [setEntry, h1, ih h]

/-- A key absent from a list is read from what is appended to it. -/
theorem lookupKey_append_of_absent (k : JSString) (ps qs : Props)
    (h : lookupKey k ps = none) : lookupKey k (ps ++ qs) = lookupKey k qs := by
  induction ps with
  | nil => simp
  | cons p rest ih =>
    obtain ⟨k1, v1⟩ := p
    by_cases h1 : k1 = k
    · simp [lookupKey, h1] at h
    · simp only [lookupKey, h1, if_false] at h
      simp [lookupKey, h1, ih h]

/-- A value that is not `typeof 'object'` holds no array. -/
theorem toPlain_of_scalar (v : JSValue) (h : typeofIsObject v = false) : toPlain v = v := by
  cases v <;> simp_all [toPlain, typeofIsObject]

/-- When the source has no property named `hasOwnProperty`, the two-argument call is the
loop over the properties of the source. -/
theorem merge2_object (t : JSValue) (sc : ObjClass) (ps : Props)
    (h : lookupKey (utf16 "hasOwnProperty") ps = none) :
    merge2 t (.object sc ps)
      = mergeProps (if typeofIsObject t = true then t else emptyObject) ps := by
  simp only [merge2, h]

/-- A two-argument call that returns has a source without a property named
`hasOwnProperty`, and what it returns is what the loop returns. -/
theorem merge2_object_ok (t r : JSValue) (sc : ObjClass) (ps : Props)
    (h : merge2 t (.object sc ps) = .ok r) :
    lookupKey (utf16 "hasOwnProperty") ps = none ∧
      mergeProps (if typeofIsObject t = true then t else emptyObject) ps = .ok r := by
  simp only [merge2] at h
  cases hl : lookupKey (utf16 "hasOwnProperty") ps with
  | some x => simp [hl] at h
  | none => exact ⟨rfl, by simpa [hl] using h⟩

/-- A key that a property list avoids reads as absent. -/
theorem lookupKey_of_avoidsKeysProps (keys : List JSString) (k : JSString) (hk : k ∈ keys) :
    ∀ (ps : Props), avoidsKeysProps keys ps = true → lookupKey k ps = none
  | [], _ => rfl
  | (k1, v1) :: rest, h => by
    simp only [avoidsKeysProps, Bool.and_eq_true, decide_eq_true_eq] at h
    have hne : k1 ≠ k := by
      intro heq
      subst heq
      exact h.1.1 hk
    simp [lookupKey, hne, lookupKey_of_avoidsKeysProps keys k hk rest h.2]

mutual
/-- Merging a null-free object into a target that is not an object copies it. -/
theorem merge2_fresh_copy (keys : List JSString) (hown : utf16 "hasOwnProperty" ∈ keys) :
    ∀ (v t : JSValue), typeofIsObject t = false →
    typeofIsObject v = true → nullFree v = true → uniqueKeys v = true →
    avoidsKeys keys v = true → merge2 t v = .ok (toPlain v)
  | .object c ps, t, ht, _, hn, hu, ha => by
    have hap : avoidsKeysProps keys ps = true := by simpa [avoidsKeys] using ha
    have h := mergeProps_fresh_copy keys hown ps [] (by simpa [nullFree] using hn)
      (by simpa [uniqueKeys] using hu) hap (fun _ _ => rfl)
    rw [merge2_object t c ps (lookupKey_of_avoidsKeysProps keys _ hown ps hap)]
    simpa [ht, emptyObject, toPlain] using h
  | .null, _, _, _, hn, _, _ => by simp [nullFree] at hn
  | .undefined, _, _, hv, _, _, _ => by simp [typeofIsObject] at hv
  | .bool _, _, _, hv, _, _, _ => by simp [typeofIsObject] at hv
  | .number _, _, _, hv, _, _, _ => by simp [typeofIsObject] at hv
  | .string _, _, _, hv, _, _, _ => by simp [typeofIsObject] at hv
/-- Merging null-free properties with fresh keys into a plain object appends their copies. -/
theorem mergeProps_fresh_copy (keys : List JSString) (hown : utf16 "hasOwnProperty" ∈ keys) :
    ∀ (ps acc : List (JSString × JSValue)),
    nullFreeProps ps = true → uniqueKeysProps ps = true → avoidsKeysProps keys ps = true →
    (∀ k, (lookupKey k ps).isSome = true → lookupKey k acc = none) →
    mergeProps (.object .plain acc) ps = .ok (.object .plain (acc ++ toPlainProps ps))
  | [], acc, _, _, _, _ => by simp [mergeProps, toPlainProps]
  | (k, v) :: rest, acc, hn, hu, ha, hd => by
    simp only [avoidsKeysProps, Bool.and_eq_true] at ha
    simp only [nullFreeProps, Bool.and_eq_true] at hn
    simp only [uniqueKeysProps, Bool.and_eq_true, Option.isNone_iff_eq_none] at hu
    obtain ⟨⟨hk, huv⟩, hur⟩ := hu
    have hka : lookupKey k acc = none := hd k (by simp [lookupKey])
    have hd2 : ∀ x, ∀ k2, (lookupKey k2 rest).isSome = true →
        lookupKey k2 (acc ++ [(k, x)]) = none := by
      intro x k2 h2
      have hne : k ≠ k2 := by
        intro heq
        subst heq
        simp [hk] at h2
      have h3 : lookupKey k2 acc = none := hd k2 (by simp [lookupKey, hne, h2])
      rw [lookupKey_append_of_absent _ _ _ h3]
      simp [lookupKey, hne]
    by_cases hv : typeofIsObject v = true
    · have h1 := merge2_fresh_copy keys hown v .undefined rfl hv hn.1 huv ha.1.2
      have h2 := mergeProps_fresh_copy keys hown rest (acc ++ [(k, toPlain v)]) hn.2 hur ha.2
        (hd2 _)
      simp [mergeProps, hv, hka, h1, setEntry_of_absent _ _ _ hka, h2, toPlainProps]
    · have hv2 : typeofIsObject v = false := by simpa using hv
      have h2 := mergeProps_fresh_copy keys hown rest (acc ++ [(k, v)]) hn.2 hur ha.2 (hd2 _)
      simp [mergeProps, hv2, setEntry_of_absent _ _ _ hka, h2, toPlainProps,
        toPlain_of_scalar v hv2]
end

mutual
/-- A value without arrays is its own plain form. -/
theorem toPlain_of_arrayFree : ∀ (v : JSValue), arrayFree v = true → toPlain v = v
  | .object .plain ps, h => by
    simp [toPlain, toPlainProps_of_arrayFree ps (by simpa [arrayFree] using h)]
  | .object .array _, h => by simp [arrayFree] at h
  | .undefined, _ => rfl
  | .null, _ => rfl
  | .bool _, _ => rfl
  | .number _, _ => rfl
  | .string _, _ => rfl
/-- A property list without arrays is its own plain form. -/
theorem toPlainProps_of_arrayFree : ∀ (ps : List (JSString × JSValue)),
    arrayFreeProps ps = true → toPlainProps ps = ps
  | [], _ => rfl
  | (k, v) :: rest, h => by
    simp only [arrayFreeProps, Bool.and_eq_true] at h
    simp [toPlainProps, toPlain_of_arrayFree v h.1, toPlainProps_of_arrayFree rest h.2]
end


/-- Among pairwise distinct keys, each property is the one read under its key. -/
theorem lookupKey_of_mem_uniqueKeysProps : ∀ (ps : Props) (k : JSString) (v : JSValue),
    uniqueKeysProps ps = true → (k, v) ∈ ps → lookupKey k ps = some v
  | [], _, _, _, hm => by simp at hm
  | (k1, v1) :: rest, k, v, hu, hm => by
    simp only [uniqueKeysProps, Bool.and_eq_true, Option.isNone_iff_eq_none] at hu
    obtain ⟨⟨hk, _⟩, hur⟩ := hu
    rcases List.mem_cons.mp hm with heq | hrest
    · cases heq
      simp [lookupKey]
    · have h := lookupKey_of_mem_uniqueKeysProps rest k v hur hrest
      by_cases h1 : k1 = k
      · subst h1
        rw [hk] at h
        cases h
      · simp [lookupKey, h1, h]

mutual
/-- A value whose objects have pairwise distinct keys is deep-equal to itself. -/
theorem deepEqual_refl : ∀ (v : JSValue), uniqueKeys v = true → deepEqual v v = true
  | .object c ps, hu => by
    have hu2 : uniqueKeysProps ps = true := by simpa [uniqueKeys] using hu
    simp [deepEqual, deepEqualProps_of_lookup ps ps hu2
      (fun k v hm => lookupKey_of_mem_uniqueKeysProps ps k v hu2 hm)]
  | .undefined, _ => rfl
  | .null, _ => rfl
  | .bool _, _ => by simp [deepEqual]
  | .number _, _ => by simp [deepEqual]
  | .string _, _ => by simp [deepEqual]
/-- Properties that are all read back from another list are deep-equal to what it holds. -/
theorem deepEqualProps_of_lookup : ∀ (sub whole : List (JSString × JSValue)),
    uniqueKeysProps sub = true → (∀ k v, (k, v) ∈ sub → lookupKey k whole = some v) →
    deepEqualProps sub whole = true
  | [], _, _, _ => rfl
  | (k, v) :: rest, whole, hu, hl => by
    simp only [uniqueKeysProps, Bool.and_eq_true] at hu
    have h1 := hl k v (List.mem_cons_self _ _)
    have h2 := deepEqual_refl v hu.1.2
    have h3 := deepEqualProps_of_lookup rest whole hu.2
      (fun k2 v2 hm => hl k2 v2 (List.mem_cons_of_mem _ hm))
    simp [deepEqualProps, h1, h2, h3]
end

/-- A key that no property carries reads as absent. -/
theorem lookupKey_eq_none_of_not_mem (k : JSString) (ps : Props)
    (h : k ∉ ps.map Prod.fst) : lookupKey k ps = none := by
  induction ps with
  | nil => rfl
  | cons p rest ih =>
    obtain ⟨k1, v1⟩ := p
    simp only [List.map_cons, List.mem_cons, not_or] at h
    simp [lookupKey, Ne.symm h.1, ih h.2]

/-- The loop of `_merge` keeps the class of its target and leaves every key that the
source does not have. -/
theorem mergeProps_frame (key : JSString) : ∀ (ps : Props) (c : ObjClass) (tp : Props)
    (r : JSValue), mergeProps (.object c tp) ps = .ok r → lookupKey key ps = none →
    ∃ rp, r = .object c rp ∧ lookupKey key rp = lookupKey key tp
  | [], c, tp, r, hr, _ => by
    simp only [mergeProps, Except.ok.injEq] at hr
    exact ⟨tp, hr.symm, rfl⟩
  | (k, w) :: rest, c, tp, r, hr, hk => by
    have hne : k ≠ key := by
      intro heq
      simp [lookupKey, heq] at hk
    have hk2 : lookupKey key rest = none := by simpa [lookupKey, hne] using hk
    by_cases hw : typeofIsObject w = true
    · simp only [mergeProps, hw, if_true] at hr
      cases hm : merge2 ((lookupKey k tp).getD .undefined) w with
      | error e => simp [hm] at hr
      | ok merged =>
        simp only [hm] at hr
        obtain ⟨rp, h1, h2⟩ := mergeProps_frame key rest c _ r hr hk2
        exact ⟨rp, h1, by rw [h2, lookupKey_setEntry_other _ _ _ _ (Ne.symm hne)]⟩
    · simp only [mergeProps, hw] at hr
      obtain ⟨rp, h1, h2⟩ := mergeProps_frame key rest c _ r hr hk2
      exact ⟨rp, h1, by rw [h2, lookupKey_setEntry_other _ _ _ _ (Ne.symm hne)]⟩

/-- After the loop of `_merge`, a key whose source value is a scalar holds that value. -/
theorem mergeProps_scalar (key : JSString) (v : JSValue) (hv : typeofIsObject v = false) :
    ∀ (ps : Props) (c : ObjClass) (tp : Props) (r : JSValue),
    mergeProps (.object c tp) ps = .ok r → (ps.map Prod.fst).Nodup → (key, v) ∈ ps →
    ∃ rp, r = .object c rp ∧ lookupKey key rp = some v
  | [], _, _, _, _, _, hm => by simp at hm
  | (k, w) :: rest, c, tp, r, hr, hnd, hm => by
    simp only [List.map_cons, List.nodup_cons] at hnd
    rcases List.mem_cons.mp hm with heq | hrest
    · cases heq
      simp only [mergeProps, hv] at hr
      obtain ⟨rp, h1, h2⟩ := mergeProps_frame key rest c _ r hr
        (lookupKey_eq_none_of_not_mem key rest hnd.1)
      exact ⟨rp, h1, by rw [h2, lookupKey_setEntry_same]⟩
    · by_cases hw : typeofIsObject w = true
      · simp only [mergeProps, hw, if_true] at hr
        cases hmg : merge2 ((lookupKey k tp).getD .undefined) w with
        | error e => simp [hmg] at hr
        | ok merged =>
          simp only [hmg] at hr
          exact mergeProps_scalar key v hv rest c _ r hr hnd.2 hrest
      · simp only [mergeProps, hw] at hr
        exact mergeProps_scalar key v hv rest c _ r hr hnd.2 hrest

/-- A null-free property list yields null-free values, also for a key it does not have. -/
theorem nullFree_lookupKey_getD (k : JSString) (tp : Props) (h : nullFreeProps tp = true) :
    nullFree ((lookupKey k tp).getD .undefined) = true := by
  induction tp with
  | nil => simp [lookupKey, nullFree]
  | cons p rest ih =>
    obtain ⟨k1, v1⟩ := p
    simp only [nullFreeProps, Bool.and_eq_true] at h
    by_cases h1 : k1 = k
    · simp [lookupKey, h1, h.1]
    · simpa [lookupKey, h1] using ih h.2

/-- Writing a null-free value into a null-free property list keeps it null-free. -/
theorem nullFreeProps_setEntry (k : JSString) (v : JSValue) (tp : Props)
    (hv : nullFree v = true) (h : nullFreeProps tp = true) :
    nullFreeProps (setEntry k v tp) = true := by
  induction tp with
  | nil => simp [setEntry, nullFreeProps, hv]
  | cons p rest ih =>
    obtain ⟨k1, v1⟩ := p
    simp only [nullFreeProps, Bool.and_eq_true] at h
    by_cases h1 : k1 = k
    · simp [setEntry, h1, nullFreeProps, hv, h.2]
    · simp [setEntry, h1, nullFreeProps, h.1, ih h.2]

/-- A value that is not `typeof 'object'` is not `null`. -/
theorem nullFree_of_scalar (v : JSValue) (h : typeofIsObject v = false) :
    nullFree v = true := by
  cases v <;> simp_all [nullFree, typeofIsObject]

/-- The target the loops work on, once `_merge` has replaced a non-object by an empty
object, is an object with null-free properties when the given target was null-free. -/
theorem coerced_target_of_nullFree (t : JSValue) (h : nullFree t = true) :
    ∃ c tp, (if typeofIsObject t = true then t else emptyObject) = .object c tp ∧
      nullFreeProps tp = true := by
  cases t with
  | null => simp [nullFree] at h
  | object c tp => exact ⟨c, tp, by simp [typeofIsObject], by simpa [nullFree] using h⟩
  | undefined => exact ⟨.plain, [], by simp [typeofIsObject, emptyObject], rfl⟩
  | bool b => exact ⟨.plain, [], by simp [typeofIsObject, emptyObject], rfl⟩
  | number n => exact ⟨.plain, [], by simp [typeofIsObject, emptyObject], rfl⟩
  | string s => exact ⟨.plain, [], by simp [typeofIsObject, emptyObject], rfl⟩

/-- Assigning scalars to an object never throws. -/
theorem assignAll_total : ∀ (ps : Props) (c : ObjClass) (tp : Props),
    nullFreeProps tp = true → nullFreeProps ps = true →
    ∃ r, assignAll (.object c tp) ps = .ok r ∧ nullFree r = true
  | [], c, tp, h, _ => ⟨.object c tp, rfl, by simpa [nullFree] using h⟩
  | (k, v) :: rest, c, tp, h, hp => by
    simp only [nullFreeProps, Bool.and_eq_true] at hp
    simpa [assignAll] using
      assignAll_total rest c (setEntry k v tp) (nullFreeProps_setEntry k v tp hp.1 h) hp.2

/-- The characters of a string are no `null`. -/
theorem nullFreeProps_stringEntries : ∀ (s : JSString) (i : Nat),
    nullFreeProps (stringEntries i s) = true
  | [], _ => rfl
  | c :: rest, i => by
    simp [stringEntries, nullFreeProps, nullFree, nullFreeProps_stringEntries rest (i + 1)]

mutual
/-- With a null-free target and a source without a property named `hasOwnProperty`, the
two-argument merge returns, and the result is null-free. -/
theorem merge2_total (keys : List JSString) (hk : utf16 "hasOwnProperty" ∈ keys) :
    ∀ (s t : JSValue), avoidsKeys keys s = true → nullFree t = true →
    ∃ r, merge2 t s = .ok r ∧ nullFree r = true
  | .object sc ps, t, ha, ht => by
    have hap : avoidsKeysProps keys ps = true := by simpa [avoidsKeys] using ha
    obtain ⟨c, tp, h1, h2⟩ := coerced_target_of_nullFree t ht
    rw [merge2_object t sc ps (lookupKey_of_avoidsKeysProps keys _ hk ps hap), h1]
    exact mergeProps_total keys hk ps c tp hap h2
  | .string s, t, _, ht => by
    obtain ⟨c, tp, h1, h2⟩ := coerced_target_of_nullFree t ht
    simp only [merge2, h1]
    exact assignAll_total _ c tp h2 (nullFreeProps_stringEntries s 0)
  | .undefined, t, _, ht => by
    obtain ⟨c, tp, h1, h2⟩ := coerced_target_of_nullFree t ht
    exact ⟨.object c tp, by simp only [merge2, h1], by simpa [nullFree] using h2⟩
  | .null, t, _, ht => by
    obtain ⟨c, tp, h1, h2⟩ := coerced_target_of_nullFree t ht
    exact ⟨.object c tp, by simp only [merge2, h1], by simpa [nullFree] using h2⟩
  | .bool _, t, _, ht => by
    obtain ⟨c, tp, h1, h2⟩ := coerced_target_of_nullFree t ht
    exact ⟨.object c tp, by simp only [merge2, h1], by simpa [nullFree] using h2⟩
  | .number _, t, _, ht => by
    obtain ⟨c, tp, h1, h2⟩ := coerced_target_of_nullFree t ht
    exact ⟨.object c tp, by simp only [merge2, h1], by simpa [nullFree] using h2⟩
/-- With null-free target properties and a source without a property named
`hasOwnProperty` at any depth, the loop of `_merge` returns a null-free object. -/
theorem mergeProps_total (keys : List JSString) (hk : utf16 "hasOwnProperty" ∈ keys) :
    ∀ (ps : List (JSString × JSValue)) (c : ObjClass) (tp : Props),
    avoidsKeysProps keys ps = true → nullFreeProps tp = true →
    ∃ r, mergeProps (.object c tp) ps = .ok r ∧ nullFree r = true
  | [], c, tp, _, h => ⟨.object c tp, rfl, by simpa [nullFree] using h⟩
  | (k, w) :: rest, c, tp, ha, h => by
    simp only [avoidsKeysProps, Bool.and_eq_true] at ha
    by_cases hw : typeofIsObject w = true
    · obtain ⟨m, hm, hmn⟩ := merge2_total keys hk w ((lookupKey k tp).getD .undefined)
        ha.1.2 (nullFree_lookupKey_getD k tp h)
      simp only [mergeProps, hw, if_true, hm]
      exact mergeProps_total keys hk rest c _ ha.2 (nullFreeProps_setEntry k m tp hmn h)
    · have hw2 : typeofIsObject w = false := by simpa using hw
      simp only [mergeProps, hw]
      exact mergeProps_total keys hk rest c _ ha.2
        (nullFreeProps_setEntry k w tp (nullFree_of_scalar w hw2) h)
end


/-- The two-argument call is the first loop alone. -/
theorem merge_two_eq (t v : JSValue) : _merge t v [] = merge2 t v := by
  simp only [_merge]
  cases merge2 t v <;> rfl

/-- A two-argument call on an object target that returns has returned what the loop over
the source's properties returns. -/
theorem merge_object_ok (tc sc : ObjClass) (tp sp : Props) (r : JSValue)
    (h : _merge (.object tc tp) (.object sc sp) [] = .ok r) :
    mergeProps (.object tc tp) sp = .ok r := by
  rw [merge_two_eq] at h
  simpa [typeofIsObject] using (merge2_object_ok _ _ _ _ h).2

/-- The two-argument call on an object target, with a source that has no property named
`hasOwnProperty`, is the loop over the source's properties. -/
theorem merge_object_eq (tc sc : ObjClass) (tp sp : Props)
    (h : lookupKey (utf16 "hasOwnProperty") sp = none) :
    _merge (.object tc tp) (.object sc sp) [] = mergeProps (.object tc tp) sp := by
  rw [merge_two_eq, merge2_object _ _ _ h]
  simp [typeofIsObject]

/-- C8 fails as stated: `_merge({}, {a: null})` returns `{a: {}}`, an empty object where
the source has `null`, and `_merge({}, {a: [1]})` returns `{a: {"0": 1}}`, a plain
object where the source has an array; neither result is deep-equal to its source.  With
a source that has a property named `hasOwnProperty`, as in
`_merge({}, {hasOwnProperty: 1, a: 2})`, the call raises `TypeError`: the loop calls
`source.hasOwnProperty(property)`, and the value found under that name is no function. -/
theorem merge_into_empty_null_and_array :
    _merge emptyObject (.object .plain [(utf16 "a", .null)]) []
      = .ok (.object .plain [(utf16 "a", emptyObject)]) ∧
    deepEqual (.object .plain [(utf16 "a", emptyObject)])
      (.object .plain [(utf16 "a", .null)]) = false ∧
    _merge emptyObject (.object .plain [(utf16 "a", arrayOf [.number 1])]) []
      = .ok (.object .plain [(utf16 "a", .object .plain [(utf16 "0", .number 1)])]) ∧
    deepEqual (.object .plain [(utf16 "a", .object .plain [(utf16 "0", .number 1)])])
      (.object .plain [(utf16 "a", arrayOf [.number 1])]) = false ∧
    _merge emptyObject
      (.object .plain [(utf16 "hasOwnProperty", .number 1), (utf16 "a", .number 2)]) []
      = .error .TypeError :=
  ⟨rfl, rfl, rfl, rfl, rfl⟩

/-- C8, amended: for every source object that holds no `null` and has, at any depth, no
property named `hasOwnProperty` or `__proto__` (its keys pairwise distinct, as those of an
object are), `_merge({}, source)` returns the source with each array in it copied as the
plain object of its indices; when the source holds no array either, the result is the
source itself, key for key and in the same order, hence deep-equal to it. -/
theorem merge_into_empty_copies (cls : ObjClass) (props : Props)
    (hn : nullFree (.object cls props) = true) (hu : uniqueKeys (.object cls props) = true)
    (hk : avoidsKeys shadowingKeys (.object cls props) = true) :
    _merge emptyObject (.object cls props) [] = .ok (toPlain (.object cls props)) ∧
    (arrayFree (.object cls props) = true →
      ∃ r, _merge emptyObject (.object cls props) [] = .ok r ∧ r = .object cls props ∧
        deepEqual r (.object cls props) = true) := by
  have hkp : avoidsKeysProps shadowingKeys props = true := by simpa [avoidsKeys] using hk
  have hown : utf16 "hasOwnProperty" ∈ shadowingKeys := List.mem_cons_self _ _
  have h := mergeProps_fresh_copy shadowingKeys hown props [] (by simpa [nullFree] using hn)
    (by simpa [uniqueKeys] using hu) hkp (fun _ _ => rfl)
  have h1 : _merge emptyObject (.object cls props) [] = .ok (toPlain (.object cls props)) := by
    rw [emptyObject, merge_object_eq _ _ _ _
      (lookupKey_of_avoidsKeysProps shadowingKeys _ hown props hkp), h]
    simp only [List.nil_append, toPlain]
  refine ⟨h1, fun ha => ⟨_, h1, toPlain_of_arrayFree _ ha, ?_⟩⟩
  rw [toPlain_of_arrayFree _ ha]
  exact deepEqual_refl _ hu

/-- C8, amended, at a source with a nested mapping, a string, a boolean and `undefined`. -/
theorem merge_into_empty_copies_witness :
    ∃ r, _merge emptyObject (.object .plain
        [(utf16 "a", .object .plain [(utf16 "x", .number 1), (utf16 "y", .string (utf16 "s"))]),
         (utf16 "b", .bool true), (utf16 "c", .undefined)]) [] = .ok r ∧
      r = .object .plain
        [(utf16 "a", .object .plain [(utf16 "x", .number 1), (utf16 "y", .string (utf16 "s"))]),
         (utf16 "b", .bool true), (utf16 "c", .undefined)] ∧
      deepEqual r (.object .plain
        [(utf16 "a", .object .plain [(utf16 "x", .number 1), (utf16 "y", .string (utf16 "s"))]),
         (utf16 "b", .bool true), (utf16 "c", .undefined)]) = true :=
  (merge_into_empty_copies .plain
    [(utf16 "a", .object .plain [(utf16 "x", .number 1), (utf16 "y", .string (utf16 "s"))]),
     (utf16 "b", .bool true), (utf16 "c", .undefined)] rfl rfl (by decide)).2 rfl

/-- C9 fails on the code: with the target `{a: null}` and the source `{a: {x: 1}, b: 2}`
the call raises `TypeError`, where the claim has a result that holds `2` under the scalar
key `b`.  The `null` under `a` is handed to the recursive call as its target, passes the
test `typeof target !== 'object'` there, and the loop then writes a property of `null`.
With `{}` in place of the `null` the call returns `{a: {x: 1}, b: 2}`, which holds `2`
under `b`. -/
theorem merge_null_in_target_throws :
    _merge (.object .plain [(utf16 "a", .null)])
      (.object .plain [(utf16 "a", .object .plain [(utf16 "x", .number 1)]),
        (utf16 "b", .number 2)]) [] = .error .TypeError ∧
    _merge (.object .plain [(utf16 "a", emptyObject)])
      (.object .plain [(utf16 "a", .object .plain [(utf16 "x", .number 1)]),
        (utf16 "b", .number 2)]) []
      = .ok (.object .plain [(utf16 "a", .object .plain [(utf16 "x", .number 1)]),
          (utf16 "b", .number 2)]) :=
  ⟨rfl, rfl⟩

/-- C10 fails on the code: a `null` in the source does not replace what the target
holds.  Over the scalar `1` the result holds an empty object, over the mapping `{x: 1}`
it keeps that mapping, and with no such key it holds an empty object: `typeof null` is
`'object'`, so the `null` goes down the recursive branch as a source without
properties. -/
theorem merge_null_source_value :
    _merge (.object .plain [(utf16 "a", .number 1)]) (.object .plain [(utf16 "a", .null)]) []
      = .ok (.object .plain [(utf16 "a", emptyObject)]) ∧
    _merge (.object .plain [(utf16 "a", .object .plain [(utf16 "x", .number 1)])])
        (.object .plain [(utf16 "a", .null)]) []
      = .ok (.object .plain [(utf16 "a", .object .plain [(utf16 "x", .number 1)])]) ∧
    _merge emptyObject (.object .plain [(utf16 "a", .null)]) []
      = .ok (.object .plain [(utf16 "a", emptyObject)]) :=
  ⟨rfl, rfl, rfl⟩

/-! ## Theorems: more on `_merge` -/

/-- A target that is not `typeof 'object'` is merged into as the empty object is. -/
theorem merge2_of_not_object (t v : JSValue) (h : typeofIsObject t = false) :
    merge2 t v = merge2 emptyObject v := by
  have he : typeofIsObject emptyObject = true := rfl
  cases v with
  | object c ps =>
    simp only [merge2]
    cases lookupKey (utf16 "hasOwnProperty") ps with
    | some x => rfl
    | none => simp only [h, he, Bool.false_eq_true, if_false, if_true]
  | undefined => simp only [merge2, h, he, Bool.false_eq_true, if_false, if_true]
  | null => simp only [merge2, h, he, Bool.false_eq_true, if_false, if_true]
  | bool b => simp only [merge2, h, he, Bool.false_eq_true, if_false, if_true]
  | number n => simp only [merge2, h, he, Bool.false_eq_true, if_false, if_true]
  | string s => simp only [merge2, h, he, Bool.false_eq_true, if_false, if_true]

/-- After the loop of `_merge`, a key whose source value is `typeof 'object'` holds what the
recursive call on the target's value under that key returned. -/
theorem mergeProps_nested (key : JSString) (v : JSValue) (hv : typeofIsObject v = true) :
    ∀ (ps : Props) (c : ObjClass) (tp : Props) (r : JSValue),
    mergeProps (.object c tp) ps = .ok r → (ps.map Prod.fst).Nodup → (key, v) ∈ ps →
    ∃ rp m, r = .object c rp ∧ merge2 ((lookupKey key tp).getD .undefined) v = .ok m ∧
      lookupKey key rp = some m
  | [], _, _, _, _, _, hm => by simp at hm
  | (k, w) :: rest, c, tp, r, hr, hnd, hm => by
    simp only [List.map_cons, List.nodup_cons] at hnd
    rcases List.mem_cons.mp hm with heq | hrest
    · cases heq
      simp only [mergeProps, hv, if_true] at hr
      cases hmg : merge2 ((lookupKey key tp).getD .undefined) v with
      | error e => simp [hmg] at hr
      | ok merged =>
        simp only [hmg] at hr
        obtain ⟨rp, h1, h2⟩ := mergeProps_frame key rest c _ r hr
          (lookupKey_eq_none_of_not_mem key rest hnd.1)
        exact ⟨rp, merged, h1, rfl, by rw [h2, lookupKey_setEntry_same]⟩
    · have hne : key ≠ k := by
        intro heq
        subst heq
        exact hnd.1 (List.mem_map_of_mem Prod.fst hrest)
      by_cases hw : typeofIsObject w = true
      · simp only [mergeProps, hw, if_true] at hr
        cases hmg : merge2 ((lookupKey k tp).getD .undefined) w with
        | error e => simp [hmg] at hr
        | ok merged =>
          simp only [hmg] at hr
          obtain ⟨rp, m, h1, h2, h3⟩ := mergeProps_nested key v hv rest c _ r hr hnd.2 hrest
          rw [lookupKey_setEntry_other _ _ _ _ hne] at h2
          exact ⟨rp, m, h1, h2, h3⟩
      · simp only [mergeProps, hw] at hr
        obtain ⟨rp, m, h1, h2, h3⟩ := mergeProps_nested key v hv rest c _ r hr hnd.2 hrest
        rw [lookupKey_setEntry_other _ _ _ _ hne] at h2
        exact ⟨rp, m, h1, h2, h3⟩

/-- C11 fails on the code.  A target that is `undefined`, a string, a number or a boolean
is replaced by an empty object, so merging into it is merging into `{}`.  A `null`
target is not: `typeof null` is `'object'`, the test `typeof target !== 'object'` lets it
through, and `_merge(null, {a: 1})` raises `TypeError` where `_merge({}, {a: 1})` returns
`{a: 1}`; with a source without properties `_merge(null, {})` returns `null`, not `{}`. -/
theorem merge_null_target :
    (∀ target source : JSValue, typeofIsObject target = false →
      _merge target source [] = _merge emptyObject source []) ∧
    _merge .null (.object .plain [(utf16 "a", .number 1)]) [] = .error .TypeError ∧
    _merge emptyObject (.object .plain [(utf16 "a", .number 1)]) []
      = .ok (.object .plain [(utf16 "a", .number 1)]) ∧
    _merge .null emptyObject [] = .ok .null ∧
    _merge emptyObject emptyObject [] = .ok emptyObject := by
  refine ⟨?_, rfl, rfl, rfl, rfl⟩
  intro target source h
  rw [merge_two_eq, merge_two_eq, merge2_of_not_object _ _ h]

/-- C14 fails on the code: a call of `_merge` with three or more arguments never returns
normally.  Once the first loop is done, the second loop calls `_merge(target, ...)` as a
free identifier, which nothing binds, so the call ends in `ReferenceError` (or in the
`TypeError` of the first loop); `_merge({a: 1}, {b: 2}, {c: 3})` raises `ReferenceError`
where `_merge(_merge({a: 1}, {b: 2}), {c: 3})` returns `{a: 1, b: 2, c: 3}`. -/
theorem merge_variadic_never_returns (A B C : JSValue) (more : List JSValue) :
    (∀ r, _merge A B (C :: more) ≠ .ok r) ∧
    _merge (.object .plain [(utf16 "a", .number 1)]) (.object .plain [(utf16 "b", .number 2)])
      [.object .plain [(utf16 "c", .number 3)]] = .error .ReferenceError ∧
    _merge (.object .plain [(utf16 "a", .number 1), (utf16 "b", .number 2)])
      (.object .plain [(utf16 "c", .number 3)]) []
      = .ok (.object .plain
          [(utf16 "a", .number 1), (utf16 "b", .number 2), (utf16 "c", .number 3)]) := by
  refine ⟨?_, rfl, rfl⟩
  intro r
  simp only [_merge]
  cases merge2 A B <;> simp

/-! ## Theorems: the printed numbers of `popup` -/

/-- The character of a decimal digit has the digit's code. -/
theorem digitChar_toNat (m : Nat) (h : m < 10) : (Nat.digitChar m).toNat = 0x30 + m := by
  interval_cases m <;> rfl

/-- A decimal digit's character is one code unit, read back as the digit. -/
theorem utf16Chars_digitChar (m : Nat) (h : m < 10) (ds : List Char) :
    utf16Chars (Nat.digitChar m :: ds) = (0x30 + m) :: utf16Chars ds ∧
      digitValue (0x30 + m) = some m := by
  constructor
  · have h2 : 0x30 + m < 0x10000 := by omega
    simp [utf16Chars, utf16EncodeCodePoint, digitChar_toNat m h, h2]
  · have h3 : 0x30 ≤ 0x30 + m ∧ 0x30 + m ≤ 0x39 := by omega
    simp [digitValue, h3]

/-- Reading the digits that `Nat.toDigitsCore` puts before `ds` gives the number printed. -/
theorem readHalves_toDigitsCore (tail : JSString) : ∀ (f n : Nat) (ds : List Char), n < f →
    readHalves 0 (utf16Chars (Nat.toDigitsCore 10 f n ds) ++ tail)
      = readHalves n (utf16Chars ds ++ tail)
  | 0, n, _, h => by omega
  | f + 1, n, ds, h => by
    have hm : n % 10 < 10 := Nat.mod_lt _ (by decide)
    obtain ⟨h1, h2⟩ := utf16Chars_digitChar (n % 10) hm ds
    by_cases hq : n / 10 = 0
    · have hn : n % 10 = n := Nat.mod_eq_of_lt (by omega)
      simp only [Nat.toDigitsCore, hq, if_true, h1, List.cons_append, readHalves, h2]
      rw [hn]
      simp
    · have hlt : n / 10 < f := by omega
      simp only [Nat.toDigitsCore, hq, if_false]
      rw [readHalves_toDigitsCore tail f (n / 10) _ hlt, h1]
      simp only [List.cons_append, readHalves, h2]
      rw [Nat.div_add_mod' n 10]
      rfl

/-- The printed form of a natural number starts with a digit. -/
theorem toDigitsCore_head : ∀ (f n : Nat) (ds : List Char), 0 < f →
    ∃ c rest d, utf16Chars (Nat.toDigitsCore 10 f n ds) = c :: rest ∧ digitValue c = some d
  | 0, _, _, h => by omega
  | f + 1, n, ds, _ => by
    have hm : n % 10 < 10 := Nat.mod_lt _ (by decide)
    obtain ⟨h1, h2⟩ := utf16Chars_digitChar (n % 10) hm ds
    by_cases hq : n / 10 = 0
    · exact ⟨0x30 + n % 10, utf16Chars ds, n % 10,
        by simp only [Nat.toDigitsCore, hq, if_true, h1], h2⟩
    · simp only [Nat.toDigitsCore, hq, if_false]
      cases f with
      | zero =>
        exact ⟨0x30 + n % 10, utf16Chars ds, n % 10, by simp only [Nat.toDigitsCore, h1], h2⟩
      | succ g => exact toDigitsCore_head (g + 1) (n / 10) _ (by omega)

/-- The code units of a printed natural number. -/
theorem utf16_repr (n : Nat) :
    utf16 (Nat.repr n) = utf16Chars (Nat.toDigitsCore 10 (n + 1) n []) := rfl

/-- Reading a printed natural number, followed by `tail`, continues from its value. -/
theorem readHalves_repr (n : Nat) (tail : JSString) :
    readHalves 0 (utf16 (Nat.repr n) ++ tail) = readHalves n tail := by
  rw [utf16_repr, readHalves_toDigitsCore tail (n + 1) n [] (by omega)]
  rfl

/-- A numeral that starts with a digit has no sign. -/
theorem twiceValue_of_digit (c d : Nat) (rest : JSString) (h : digitValue c = some d) :
    twiceValue (c :: rest) = (readHalves 0 (c :: rest)).map (fun (n : Nat) => (n : Int)) := by
  have hc : c ≠ 0x2D := by
    intro heq
    subst heq
    simp [digitValue] at h
  simp [twiceValue, hc]

/-- The printed form of a natural number, followed by `tail`, reads as an unsigned
numeral. -/
theorem twiceValue_repr (n : Nat) (tail : JSString) :
    twiceValue (utf16 (Nat.repr n) ++ tail) = (readHalves n tail).map (fun (k : Nat) => (k : Int)) := by
  obtain ⟨c, rest, d, h1, h2⟩ := toDigitsCore_head (n + 1) n [] (by omega)
  have h3 := readHalves_repr n tail
  rw [utf16_repr] at h3 ⊢
  rw [h1] at h3 ⊢
  rw [List.cons_append] at h3 ⊢
  rw [twiceValue_of_digit c d _ h2, h3]

/-- The code units of a string that starts with a minus sign. -/
theorem utf16_minus (s : String) : utf16 ("-" ++ s) = 0x2D :: utf16 s := rfl

/-- The number `halfToString t` prints, doubled, is `t`: it prints `t / 2`. -/
theorem twiceValue_halfToString (t : Int) : twiceValue (halfToString t) = some t := by
  unfold halfToString
  by_cases he : t % 2 = 0
  · simp only [he, if_true]
    cases hq : t / 2 with
    | ofNat m =>
      have h := twiceValue_repr m []
      rw [List.append_nil] at h
      show twiceValue (utf16 (Nat.repr m)) = some t
      rw [h]
      simp only [readHalves, Option.map_some']
      congr 1
      have : t / 2 = (m : Int) := hq
      omega
    | negSucc m =>
      show twiceValue (utf16 ("-" ++ Nat.repr (m + 1))) = some t
      rw [utf16_minus]
      have h := readHalves_repr (m + 1) []
      rw [List.append_nil] at h
      simp only [twiceValue, if_true, h, readHalves, Option.map_some']
      congr 1
      have : t / 2 = -((m : Int) + 1) := by rw [hq, Int.negSucc_eq]
      omega
  · simp only [he, if_false]
    have hhalf : readHalves (t.natAbs / 2) (utf16 ".5") = some (2 * (t.natAbs / 2) + 1) := rfl
    by_cases hneg : t < 0
    · simp only [hneg, if_true]
      show twiceValue (0x2D :: [] ++ utf16 (Nat.repr (t.natAbs / 2)) ++ utf16 ".5") = some t
      simp only [List.cons_append, List.nil_append, twiceValue, if_true, readHalves_repr, hhalf,
        Option.map_some']
      congr 1
      omega
    · simp only [hneg, if_false, List.nil_append]
      show twiceValue (utf16 (Nat.repr (t.natAbs / 2)) ++ utf16 ".5") = some t
      rw [twiceValue_repr, hhalf]
      simp only [Option.map_some']
      congr 1
      omega


/-- Whenever `popup` reaches `window.open`, the window name and the feature string are
those of the template, with the numbers of the screen alone. -/
theorem popup_ok_inv (P : Platform) (screen : Screen) (url : JSString) (params : JSValue)
    (self : Props) (w : WindowOpen) (h : (popup P screen url params self).result = .ok w) :
    w.target = utf16 "targetWindow" ∧
    w.features = popupFeatures (halfToString ((screen.width : Int) - 500))
      (halfToString ((screen.height : Int) - 350)) (utf16 "500") (utf16 "350") := by
  unfold popup at h
  simp only at h
  split at h
  · simp at h
  · split at h
    · simp at h
    · simp only [Except.ok.injEq] at h
      subst h
      exact ⟨rfl, rfl⟩

set_option maxRecDepth 8192 in
/-- The last lines of the feature string, with the fixed width and height filled in. -/
theorem popupFeatures_tail :
    utf16 ",\n        width=" ++ (utf16 "500" ++ (utf16 ",\n        height=" ++
      (utf16 "350" ++ utf16 "\n      ")))
      = utf16 ",\n        width=500,\n        height=350\n      " := rfl

/-- C15: on every host and screen of width `W` and height `H`, and for every url, params
and instance, a call of `popup` that reaches `window.open` names the window
`targetWindow` and passes the feature string of the template, line for line: `toolbar=no`,
`location=no`, `status=no`, `menubar=no`, `scrollbars=yes`, `resizable=yes`, then `left=`
and `top=` with numbers computed from the screen alone, `width=500` and `height=350`.  The
number printed after `left=` is `(W - 500) / 2` and the one after `top=` is
`(H - 350) / 2`: read back and doubled they are `W - 500` and `H - 350`.  A call without
`params` always reaches `window.open`. -/
theorem popup_features (P : Platform) (screen : Screen) (url : JSString) (params : JSValue)
    (self : Props) (w : WindowOpen) (h : (popup P screen url params self).result = .ok w) :
    w.target = utf16 "targetWindow" ∧
    w.features =
      utf16 "\n        toolbar=no,\n        location=no,\n        status=no,\n        menubar=no,\n        scrollbars=yes,\n        resizable=yes,\n        left="
        ++ halfToString ((screen.width : Int) - 500)
        ++ utf16 ",\n        top="
        ++ halfToString ((screen.height : Int) - 350)
        ++ utf16 ",\n        width=500,\n        height=350\n      " ∧
    twiceValue (halfToString ((screen.width : Int) - 500)) = some ((screen.width : Int) - 500) ∧
    twiceValue (halfToString ((screen.height : Int) - 350))
      = some ((screen.height : Int) - 350) ∧
    ∃ w0, (popup P screen url .undefined self).result = .ok w0 := by
  obtain ⟨h1, h2⟩ := popup_ok_inv P screen url params self w h
  refine ⟨h1, ?_, twiceValue_halfToString _, twiceValue_halfToString _, ?_⟩
  · rw [h2]
    simp only [popupFeatures, List.append_assoc, popupFeatures_tail]
  · simp only [popup, ownEntries, emptyObject, queryPairs]
    exact ⟨_, rfl⟩

set_option maxRecDepth 65536 in
/-- C15, on a screen of 1024 by 767 pixels, with the claim's example parameters: the call
reaches `window.open` with `left=262` and `top=208.5`. -/
theorem popup_features_witness :
    ∃ w, (popup ecma ⟨1024, 767⟩ (utf16 "http://example.com")
        (.object .plain [(utf16 "a", .string (utf16 "1"))]) []).result = .ok w ∧
      w.target = utf16 "targetWindow" ∧
      w.features =
        utf16 "\n        toolbar=no,\n        location=no,\n        status=no,\n        menubar=no,\n        scrollbars=yes,\n        resizable=yes,\n        left=262,\n        top=208.5,\n        width=500,\n        height=350\n      " :=
  ⟨_, rfl, (popup_features ecma ⟨1024, 767⟩ (utf16 "http://example.com")
      (.object .plain [(utf16 "a", .string (utf16 "1"))]) [] _ rfl).1, rfl⟩

/-! ## Theorems: the instance state and the second call of `_encode` -/

/-- C16 fails as stated: `_encode("a")` and `_isEncoded("a")` on an instance without
fields leave it with the field `str` (holding `undefined`), and on an instance whose field
`str` holds `"x"` they leave `undefined` there: `_isEncoded` executes
`this.str = str.toRFC3986()`. -/
theorem encode_writes_this_str :
    (_encode ecma (.string (utf16 "a")) []).self = [(utf16 "str", .undefined)] ∧
    (_isEncoded ecma (.string (utf16 "a")) []).self = [(utf16 "str", .undefined)] ∧
    (_encode ecma (.string (utf16 "a")) [(utf16 "str", .string (utf16 "x"))]).self
      = [(utf16 "str", .undefined)] ∧
    lookupKey (utf16 "str") [(utf16 "str", .string (utf16 "x"))] = some (.string (utf16 "x")) ∧
    lookupKey (utf16 "str")
      (_encode ecma (.string (utf16 "a")) [(utf16 "str", .string (utf16 "x"))]).self
      = some .undefined :=
  ⟨rfl, rfl, rfl, rfl, rfl⟩

/-- C16, amended: on every host, for every input and every instance, `_isEncoded(str)`
writes the field `str` and nothing else.  When the call `str.toRFC3986()` returns, which it
does exactly when the input is a string that the host's encoder accepts, the instance
after the call is the instance before it with `this.str` set to the value that call
returned; when it throws, the instance is as it was.  `_encode(str)` leaves the instance
as it was for `undefined` and `null`, and as `_isEncoded(str)` leaves it for every other
input.  Every field other than `str` holds after either call what it held before. -/
theorem encode_frame (P : Platform) (str : JSValue) (self : Props) :
    (_isEncoded P str self).self =
      (match callToRFC3986 P str with
      | .ok v => setEntry (utf16 "str") v self
      | .error _ => self) ∧
    (_encode P str self).self =
      (match str with
      | .undefined => self
      | .null => self
      | _ => (_isEncoded P str self).self) ∧
    ((∃ v, callToRFC3986 P str = .ok v) ↔
      ∃ s t, str = .string s ∧ P.encodeURIComponent s = .ok t) ∧
    (∀ k, k ≠ utf16 "str" →
      lookupKey k (_encode P str self).self = lookupKey k self ∧
      lookupKey k (_isEncoded P str self).self = lookupKey k self) := by
  have h2 : (_encode P str self).self =
      (match str with
      | .undefined => self
      | .null => self
      | _ => (_isEncoded P str self).self) := by
    cases str with
    | string s =>
      simp only [_encode]
      cases (_isEncoded P (.string s) self).result with
      | error e => rfl
      | ok b => cases b <;> rfl
    | undefined => rfl
    | null => rfl
    | bool b => rfl
    | number n => rfl
    | object c ps => rfl
  have h1 : (_isEncoded P str self).self =
      (match callToRFC3986 P str with
      | .ok v => setEntry (utf16 "str") v self
      | .error _ => self) := by
    cases str with
    | string s =>
      simp only [_isEncoded, callToRFC3986]
      cases toRFC3986 P s with
      | error e => rfl
      | ok v =>
        simp only
        cases P.decodeURIComponent s <;> rfl
    | undefined => rfl
    | null => rfl
    | bool b => rfl
    | number n => rfl
    | object c ps => rfl
  have h3 : ∀ k, k ≠ utf16 "str" →
      lookupKey k (_isEncoded P str self).self = lookupKey k self := by
    intro k hk
    rw [h1]
    cases callToRFC3986 P str with
    | error e => rfl
    | ok v => exact lookupKey_setEntry_other _ _ _ _ hk
  refine ⟨h1, h2, ?_, ?_⟩
  · cases str with
    | string s =>
      simp only [callToRFC3986, toRFC3986_eq]
      cases hcase : P.encodeURIComponent s <;> simp [hcase]
    | undefined => simp [callToRFC3986]
    | null => simp [callToRFC3986]
    | bool b => simp [callToRFC3986]
    | number n => simp [callToRFC3986]
    | object c ps => simp [callToRFC3986]
  · intro k hk
    refine ⟨?_, h3 k hk⟩
    rw [h2]
    cases str with
    | undefined => rfl
    | null => rfl
    | string s => exact h3 k hk
    | bool b => exact h3 k hk
    | number n => exact h3 k hk
    | object c ps => exact h3 k hk

/-- C16, amended, on an instance with a field `other`: after `_encode("a b")` the field
`other` holds what it held, and the instance holds under `str` what `"a b".toRFC3986()`
returned; after `_encode` of a lone surrogate, on which `toRFC3986` throws, the instance
is as it was. -/
theorem encode_frame_witness :
    lookupKey (utf16 "other")
        (_encode ecma (.string (utf16 "a b")) [(utf16 "other", .number 7)]).self
      = some (.number 7) ∧
    (∀ v, callToRFC3986 ecma (.string (utf16 "a b")) = .ok v →
      (_encode ecma (.string (utf16 "a b")) [(utf16 "other", .number 7)]).self
        = [(utf16 "other", .number 7), (utf16 "str", v)]) ∧
    (_encode ecma (.string [0xD800]) [(utf16 "other", .number 7)]).self
      = [(utf16 "other", .number 7)] :=
  ⟨((encode_frame ecma (.string (utf16 "a b")) [(utf16 "other", .number 7)]).2.2.2
      (utf16 "other") (by decide)).1,
   fun v hv => by
    have h := encode_frame ecma (.string (utf16 "a b")) [(utf16 "other", .number 7)]
    rw [h.2.1, h.1, hv]
    rfl,
   by
    have h := encode_frame ecma (.string [0xD800]) [(utf16 "other", .number 7)]
    rw [h.2.1, h.1]
    rfl⟩

/-- C17: on every host, for every string `s` on which `_encode(s)` returns normally, with
the value `v`, the call `_encode(v)` returns `v` again, on the instance the first call left
and on any other: `_encode(_encode(s))` equals `_encode(s)`. -/
theorem encode_idempotent (P : Platform) (s : JSString) (self : Props) (v : JSValue)
    (h : (_encode P (.string s) self).result = .ok v) :
    (_encode P v (_encode P (.string s) self).self).result = .ok v ∧
    ∀ self2, (_encode P v self2).result = .ok v := by
  have key : ∀ self2, (_encode P v self2).result = .ok v := by
    intro self2
    rw [encode_string_result] at h
    cases he : P.encodeURIComponent s with
    | error e => simp [he] at h
    | ok t =>
      cases hd : P.decodeURIComponent s with
      | error e => simp [he, hd] at h
      | ok d =>
        simp only [he, hd] at h
        by_cases hne : d = s
        · simp only [hne, ne_eq, not_true_eq_false, if_false, Except.ok.injEq] at h
          subst h
          rfl
        · simp only [ne_eq, hne, not_false_eq_true, if_true, Except.ok.injEq] at h
          subst h
          rw [encode_string_result]
          simp [he, hd, hne]
  exact ⟨key _, key⟩

/-- C17 at `"a%20b"`, which `_encode` returns as it is, and at `"a b"`, for which it
returns `undefined`: the second call returns the same value. -/
theorem encode_idempotent_witness :
    (_encode ecma (.string (utf16 "a%20b"))
        (_encode ecma (.string (utf16 "a%20b")) []).self).result
      = .ok (.string (utf16 "a%20b")) ∧
    (_encode ecma .undefined (_encode ecma (.string (utf16 "a b")) []).self).result
      = .ok .undefined :=
  ⟨(encode_idempotent ecma (utf16 "a%20b") [] (.string (utf16 "a%20b")) rfl).1,
   (encode_idempotent ecma (utf16 "a b") [] .undefined rfl).1⟩

/-! ## Theorems: `_objToArray` -/

/-- C18 fails on the code: `_objToArray({a: null, b: {x: 1}, c: "s"})` returns
`[null, {x: 1}]`.  The string is dropped, as the claim says, but the `null` is kept, since
`typeof null` is `'object'`: the result has an element that is not an object. -/
theorem objToArray_keeps_null :
    _objToArray (.object .plain [(utf16 "a", .null),
        (utf16 "b", .object .plain [(utf16 "x", .number 1)]),
        (utf16 "c", .string (utf16 "s"))])
      = arrayOf [.null, .object .plain [(utf16 "x", .number 1)]] ∧
    _objToArray (.object .plain [(utf16 "a", .null)]) = arrayOf [.null] :=
  ⟨rfl, rfl⟩

/-! ## Theorems: what `_merge` leaves alone, and merging twice -/

/-- The loop of `_merge` started on `null` returns only for a source without properties. -/
theorem mergeProps_null (ps : Props) (r : JSValue) (h : mergeProps .null ps = .ok r) :
    r = .null := by
  cases ps with
  | nil =>
    simp only [mergeProps, Except.ok.injEq] at h
    exact h.symm
  | cons p rest =>
    obtain ⟨k, v⟩ := p
    simp [mergeProps] at h

/-- The target that `_merge` works on is an object or `null`. -/
theorem coerced_cases (t : JSValue) :
    (if typeofIsObject t = true then t else emptyObject) = .null ∨
    ∃ c tp, (if typeofIsObject t = true then t else emptyObject) = .object c tp := by
  cases t with
  | null => exact Or.inl rfl
  | object c tp => exact Or.inr ⟨c, tp, rfl⟩
  | undefined => exact Or.inr ⟨.plain, [], rfl⟩
  | bool b => exact Or.inr ⟨.plain, [], rfl⟩
  | number n => exact Or.inr ⟨.plain, [], rfl⟩
  | string s => exact Or.inr ⟨.plain, [], rfl⟩

/-- C19 fails on the code: with the target `{a: null, c: 1}` and the source `{a: {x: 1}}`
the call raises `TypeError`, where the claim has a result that holds `1` under `c`, a key
of the target that the source does not have.  The `null` under `a` passes the test
`typeof target !== 'object'` of the recursive call, which then writes a property of
`null`.  With `{}` in place of the `null` the call returns `{a: {x: 1}, c: 1}`, which
holds under `c` what the target held. -/
theorem merge_frame_null_throws :
    lookupKey (utf16 "c") [(utf16 "a", .object .plain [(utf16 "x", .number 1)])] = none ∧
    _merge (.object .plain [(utf16 "a", .null), (utf16 "c", .number 1)])
      (.object .plain [(utf16 "a", .object .plain [(utf16 "x", .number 1)])]) []
      = .error .TypeError ∧
    _merge (.object .plain [(utf16 "a", emptyObject), (utf16 "c", .number 1)])
      (.object .plain [(utf16 "a", .object .plain [(utf16 "x", .number 1)])]) []
      = .ok (.object .plain [(utf16 "a", .object .plain [(utf16 "x", .number 1)]),
          (utf16 "c", .number 1)]) :=
  ⟨rfl, rfl, rfl⟩

/-- Writing under a key the value it already holds changes nothing. -/
theorem setEntry_of_lookupKey (k : JSString) (v : JSValue) : ∀ (ps : Props),
    lookupKey k ps = some v → setEntry k v ps = ps
  | [], h => by simp [lookupKey] at h
  | (k1, v1) :: rest, h => by
    by_cases h1 : k1 = k
    · simp only [lookupKey, h1, if_true, Option.some.injEq] at h
      simp [setEntry, h1, h]
    · simp only [lookupKey, h1, if_false] at h
      simp [setEntry, h1, setEntry_of_lookupKey k v rest h]

/-- The loop of `_merge` over properties that are all settled in the target changes
nothing. -/
theorem mergeProps_of_settled (c : ObjClass) (rp : Props) : ∀ (ps : Props),
    (∀ k v, (k, v) ∈ ps → Settled k v rp) →
    mergeProps (.object c rp) ps = .ok (.object c rp)
  | [], _ => rfl
  | (k, v) :: rest, h => by
    have hs := h k v (List.mem_cons_self _ _)
    have ih := mergeProps_of_settled c rp rest
      (fun k2 v2 hm => h k2 v2 (List.mem_cons_of_mem _ hm))
    by_cases hv : typeofIsObject v = true
    · obtain ⟨m, h1, h2⟩ := hs.1 hv
      simp only [mergeProps, hv, if_true, h1, Option.getD_some, h2,
        setEntry_of_lookupKey k m rp h1, ih]
    · have hv2 : typeofIsObject v = false := by simpa using hv
      have h1 := hs.2 hv2
      simp only [mergeProps, hv, setEntry_of_lookupKey k v rp h1, ih]
      rfl

mutual
/-- Merging a source a second time into the result of merging it gives the result back. -/
theorem merge2_again : ∀ (v t r : JSValue), uniqueKeys v = true →
    typeofIsObject v = true → merge2 t v = .ok r → merge2 r v = .ok r
  | .object sc ps, t, r, hu, _, h => by
    have hups : uniqueKeysProps ps = true := by simpa [uniqueKeys] using hu
    obtain ⟨hown, h⟩ := merge2_object_ok t r sc ps h
    rcases coerced_cases t with hc | ⟨c, tp, hc⟩
    · rw [hc] at h
      have hr := mergeProps_null ps r h
      subst hr
      rw [merge2_object _ _ _ hown]
      simpa [typeofIsObject] using h
    · rw [hc] at h
      obtain ⟨rp, h1, h2⟩ := mergeProps_settles ps c tp r hups h
      subst h1
      rw [merge2_object _ _ _ hown]
      simpa [typeofIsObject] using mergeProps_of_settled c rp ps h2
  | .null, t, r, _, _, h => by
    simp only [merge2, Except.ok.injEq] at h
    subst h
    cases t <;> simp [merge2, typeofIsObject, emptyObject]
  | .undefined, _, _, _, hv, _ => by simp [typeofIsObject] at hv
  | .bool _, _, _, _, hv, _ => by simp [typeofIsObject] at hv
  | .number _, _, _, _, hv, _ => by simp [typeofIsObject] at hv
  | .string _, _, _, _, hv, _ => by simp [typeofIsObject] at hv
/-- After the loop of `_merge`, every key of the source is settled in the result. -/
theorem mergeProps_settles : ∀ (ps : List (JSString × JSValue)) (c : ObjClass) (tp : Props)
    (r : JSValue), uniqueKeysProps ps = true → mergeProps (.object c tp) ps = .ok r →
    ∃ rp, r = .object c rp ∧ ∀ k v, (k, v) ∈ ps → Settled k v rp
  | [], c, tp, r, _, h => by
    simp only [mergeProps, Except.ok.injEq] at h
    exact ⟨tp, h.symm, fun k v hm => by simp at hm⟩
  | (k, v) :: rest, c, tp, r, hu, h => by
    simp only [uniqueKeysProps, Bool.and_eq_true, Option.isNone_iff_eq_none] at hu
    obtain ⟨⟨hk, huv⟩, hur⟩ := hu
    by_cases hv : typeofIsObject v = true
    · simp only [mergeProps, hv, if_true] at h
      cases hm : merge2 ((lookupKey k tp).getD .undefined) v with
      | error e => simp [hm] at h
      | ok m0 =>
        simp only [hm] at h
        obtain ⟨rp, h1, h2⟩ := mergeProps_settles rest c _ r hur h
        obtain ⟨rp2, h3, h4⟩ := mergeProps_frame k rest c _ r h hk
        rw [h1] at h3
        cases h3
        refine ⟨rp, h1, ?_⟩
        intro k2 v2 hmem
        rcases List.mem_cons.mp hmem with heq | hrest
        · cases heq
          rw [lookupKey_setEntry_same] at h4
          exact ⟨fun _ => ⟨m0, h4, merge2_again v _ m0 huv hv hm⟩,
            fun hf => absurd hf (by simp [hv])⟩
        · exact h2 k2 v2 hrest
    · have hv2 : typeofIsObject v = false := by simpa using hv
      simp only [mergeProps, hv] at h
      obtain ⟨rp, h1, h2⟩ := mergeProps_settles rest c _ r hur h
      obtain ⟨rp2, h3, h4⟩ := mergeProps_frame k rest c _ r h hk
      rw [h1] at h3
      cases h3
      refine ⟨rp, h1, ?_⟩
      intro k2 v2 hmem
      rcases List.mem_cons.mp hmem with heq | hrest
      · cases heq
        rw [lookupKey_setEntry_same] at h4
        exact ⟨fun hf => absurd hf (by simp [hv2]), fun _ => h4⟩
      · exact h2 k2 v2 hrest
end


/-- Writing a well-formed value keeps the keys of a property list pairwise distinct. -/
theorem uniqueKeysProps_setEntry (k : JSString) (v : JSValue) (hv : uniqueKeys v = true) :
    ∀ (tp : Props), uniqueKeysProps tp = true → uniqueKeysProps (setEntry k v tp) = true
  | [], _ => by simp [setEntry, uniqueKeysProps, lookupKey, hv]
  | (k1, v1) :: rest, h => by
    simp only [uniqueKeysProps, Bool.and_eq_true, Option.isNone_iff_eq_none] at h
    by_cases h1 : k1 = k
    · subst h1
      simp [setEntry, uniqueKeysProps, hv, h.2, h.1.1]
    · have hl : lookupKey k1 (setEntry k v rest) = none := by
        rw [lookupKey_setEntry_other _ _ _ _ h1]
        exact h.1.1
      simp [setEntry, h1, uniqueKeysProps, hl, h.1.2, uniqueKeysProps_setEntry k v hv rest h.2]

/-- What is read under a key of a well-formed property list is well-formed. -/
theorem uniqueKeys_lookupKey_getD (k : JSString) : ∀ (tp : Props),
    uniqueKeysProps tp = true → uniqueKeys ((lookupKey k tp).getD .undefined) = true
  | [], _ => rfl
  | (k1, v1) :: rest, h => by
    simp only [uniqueKeysProps, Bool.and_eq_true] at h
    by_cases h1 : k1 = k
    · simp [lookupKey, h1, h.1.2]
    · simpa [lookupKey, h1] using uniqueKeys_lookupKey_getD k rest h.2

/-- Assigning the characters of a string keeps the target well-formed. -/
theorem assignAll_uniqueKeys : ∀ (s : JSString) (i : Nat) (c : ObjClass) (tp : Props)
    (r : JSValue), uniqueKeysProps tp = true →
    assignAll (.object c tp) (stringEntries i s) = .ok r → uniqueKeys r = true
  | [], _, c, tp, r, h, hr => by
    simp only [stringEntries, assignAll, Except.ok.injEq] at hr
    subst hr
    simpa [uniqueKeys] using h
  | ch :: rest, i, c, tp, r, h, hr => by
    simp only [stringEntries, assignAll] at hr
    exact assignAll_uniqueKeys rest (i + 1) c _ r
      (uniqueKeysProps_setEntry (indexKey i) (.string [ch]) rfl tp h) hr

mutual
/-- Merging a well-formed source into a well-formed target gives a well-formed value. -/
theorem merge2_uniqueKeys : ∀ (s t r : JSValue), uniqueKeys s = true →
    uniqueKeys t = true → merge2 t s = .ok r → uniqueKeys r = true
  | .object sc ps, t, r, hs, ht, h => by
    obtain ⟨_, h⟩ := merge2_object_ok t r sc ps h
    rcases coerced_cases t with hc | ⟨c, tp, hc⟩
    · rw [hc] at h
      rw [mergeProps_null ps r h]
      rfl
    · have htp : uniqueKeysProps tp = true := by
        cases t <;> simp_all [typeofIsObject, emptyObject, uniqueKeys, uniqueKeysProps]
      rw [hc] at h
      exact mergeProps_uniqueKeys ps c tp r (by simpa [uniqueKeys] using hs) htp h
  | .string s, t, r, _, ht, h => by
    simp only [merge2] at h
    rcases coerced_cases t with hc | ⟨c, tp, hc⟩
    · rw [hc] at h
      cases s with
      | nil =>
        simp only [stringEntries, assignAll, Except.ok.injEq] at h
        subst h
        rfl
      | cons ch rest => simp [stringEntries, assignAll] at h
    · have htp : uniqueKeysProps tp = true := by
        cases t <;> simp_all [typeofIsObject, emptyObject, uniqueKeys, uniqueKeysProps]
      rw [hc] at h
      exact assignAll_uniqueKeys s 0 c tp r htp h
  | .undefined, t, r, _, ht, h => by
    simp only [merge2, Except.ok.injEq] at h
    subst h
    cases t <;> simp_all [typeofIsObject, emptyObject, uniqueKeys, uniqueKeysProps]
  | .null, t, r, _, ht, h => by
    simp only [merge2, Except.ok.injEq] at h
    subst h
    cases t <;> simp_all [typeofIsObject, emptyObject, uniqueKeys, uniqueKeysProps]
  | .bool _, t, r, _, ht, h => by
    simp only [merge2, Except.ok.injEq] at h
    subst h
    cases t <;> simp_all [typeofIsObject, emptyObject, uniqueKeys, uniqueKeysProps]
  | .number _, t, r, _, ht, h => by
    simp only [merge2, Except.ok.injEq] at h
    subst h
    cases t <;> simp_all [typeofIsObject, emptyObject, uniqueKeys, uniqueKeysProps]
/-- The loop of `_merge` over a well-formed source keeps a well-formed target so. -/
theorem mergeProps_uniqueKeys : ∀ (ps : List (JSString × JSValue)) (c : ObjClass)
    (tp : Props) (r : JSValue), uniqueKeysProps ps = true → uniqueKeysProps tp = true →
    mergeProps (.object c tp) ps = .ok r → uniqueKeys r = true
  | [], c, tp, r, _, ht, h => by
    simp only [mergeProps, Except.ok.injEq] at h
    subst h
    simpa [uniqueKeys] using ht
  | (k, v) :: rest, c, tp, r, hs, ht, h => by
    simp only [uniqueKeysProps, Bool.and_eq_true] at hs
    by_cases hv : typeofIsObject v = true
    · simp only [mergeProps, hv, if_true] at h
      cases hm : merge2 ((lookupKey k tp).getD .undefined) v with
      | error e => simp [hm] at h
      | ok m0 =>
        simp only [hm] at h
        have hm0 := merge2_uniqueKeys v _ m0 hs.1.2 (uniqueKeys_lookupKey_getD k tp ht) hm
        exact mergeProps_uniqueKeys rest c _ r hs.2 (uniqueKeysProps_setEntry k m0 hm0 tp ht) h
    · simp only [mergeProps, hv] at h
      exact mergeProps_uniqueKeys rest c _ r hs.2 (uniqueKeysProps_setEntry k v hs.1.2 tp ht) h
end

/-- C20: for every target object and every source object (the keys of each of its objects
pairwise distinct), whenever `_merge(target, source)` returns, with the value `r`, the call
`_merge(r, source)` returns too, and what it returns is `r` itself, key for key and in the
same order; `r` is then deep-equal to it (for a target whose keys are pairwise distinct as
well, which makes `r` a well-formed object). -/
theorem merge_idempotent (tc sc : ObjClass) (tprops sprops : Props) (r : JSValue)
    (hu : uniqueKeys (.object sc sprops) = true)
    (h : _merge (.object tc tprops) (.object sc sprops) [] = .ok r) :
    ∃ r2, _merge r (.object sc sprops) [] = .ok r2 ∧ r2 = r ∧
      (uniqueKeys (.object tc tprops) = true → deepEqual r2 r = true) := by
  rw [merge_two_eq] at h
  refine ⟨r, ?_, rfl, ?_⟩
  · rw [merge_two_eq]
    exact merge2_again _ _ r hu rfl h
  · intro ht
    exact deepEqual_refl r (merge2_uniqueKeys _ _ r hu ht h)

/-- C20 at the target `{a: {x: 1}, b: 1}` and the source `{a: {y: 2}, b: 5, n: null}`: the
first call returns `{a: {x: 1, y: 2}, b: 5, n: {}}`, and merging the source into that
returns the same value. -/
theorem merge_idempotent_witness :
    ∃ r2, _merge
        (.object .plain [(utf16 "a", .object .plain [(utf16 "x", .number 1),
          (utf16 "y", .number 2)]), (utf16 "b", .number 5), (utf16 "n", emptyObject)])
        (.object .plain [(utf16 "a", .object .plain [(utf16 "y", .number 2)]),
          (utf16 "b", .number 5), (utf16 "n", .null)]) [] = .ok r2 ∧
      r2 = .object .plain [(utf16 "a", .object .plain [(utf16 "x", .number 1),
          (utf16 "y", .number 2)]), (utf16 "b", .number 5), (utf16 "n", emptyObject)] ∧
      deepEqual r2 (.object .plain [(utf16 "a", .object .plain [(utf16 "x", .number 1),
          (utf16 "y", .number 2)]), (utf16 "b", .number 5), (utf16 "n", emptyObject)])
        = true :=
  match merge_idempotent .plain .plain
      [(utf16 "a", .object .plain [(utf16 "x", .number 1)]), (utf16 "b", .number 1)]
      [(utf16 "a", .object .plain [(utf16 "y", .number 2)]), (utf16 "b", .number 5),
        (utf16 "n", .null)]
      (.object .plain [(utf16 "a", .object .plain [(utf16 "x", .number 1),
          (utf16 "y", .number 2)]), (utf16 "b", .number 5), (utf16 "n", emptyObject)])
      rfl rfl with
  | ⟨r2, h1, h2, h3⟩ => ⟨r2, h1, h2, h3 rfl⟩

/-! ## Theorems: nested values and values of different kinds -/

/-- C12 fails on the code: with the target `{b: null}` and the source
`{a: {y: 2}, b: {x: 1}}` the call `_merge(target, source)` raises `TypeError`, where the
claim has a result that holds under the nested key `a` what `_merge(target.a, source.a)`,
that is `_merge(undefined, {y: 2})`, returns, namely `{y: 2}`.  The `null` under `b` passes
the test `typeof target !== 'object'` of the recursive call, which then writes a property
of `null`.  With `{}` in place of the `null` the call returns `{b: {x: 1}, a: {y: 2}}`,
and at the claim's own example `_merge({a: {x: 1}}, {a: {y: 2}})` returns
`{a: {x: 1, y: 2}}`, holding under `a` what `_merge({x: 1}, {y: 2})` returns. -/
theorem merge_nested_null_elsewhere_throws :
    _merge (.object .plain [(utf16 "b", .null)])
      (.object .plain [(utf16 "a", .object .plain [(utf16 "y", .number 2)]),
        (utf16 "b", .object .plain [(utf16 "x", .number 1)])]) [] = .error .TypeError ∧
    _merge .undefined (.object .plain [(utf16 "y", .number 2)]) []
      = .ok (.object .plain [(utf16 "y", .number 2)]) ∧
    _merge (.object .plain [(utf16 "b", emptyObject)])
      (.object .plain [(utf16 "a", .object .plain [(utf16 "y", .number 2)]),
        (utf16 "b", .object .plain [(utf16 "x", .number 1)])]) []
      = .ok (.object .plain [(utf16 "b", .object .plain [(utf16 "x", .number 1)]),
          (utf16 "a", .object .plain [(utf16 "y", .number 2)])]) ∧
    _merge (.object .plain [(utf16 "a", .object .plain [(utf16 "x", .number 1)])])
        (.object .plain [(utf16 "a", .object .plain [(utf16 "y", .number 2)])]) []
      = .ok (.object .plain
          [(utf16 "a", .object .plain [(utf16 "x", .number 1), (utf16 "y", .number 2)])]) ∧
    _merge (.object .plain [(utf16 "x", .number 1)]) (.object .plain [(utf16 "y", .number 2)]) []
      = .ok (.object .plain [(utf16 "x", .number 1), (utf16 "y", .number 2)]) :=
  ⟨rfl, rfl, rfl, rfl, rfl⟩

/-- C13 fails as stated: `_merge({a: {x: 1}}, {a: 5})` returns `{a: 5}`.  The target holds
a nested mapping under `a`, the source a scalar, and the result holds the scalar: the
value of the source wins, not the nested one. -/
theorem merge_scalar_over_nested :
    _merge (.object .plain [(utf16 "a", .object .plain [(utf16 "x", .number 1)])])
      (.object .plain [(utf16 "a", .number 5)]) []
      = .ok (.object .plain [(utf16 "a", .number 5)]) :=
  rfl

/-- C13, amended: for every target object that holds no `null`, every source object that
has, at any depth, no property named `hasOwnProperty`, `__proto__` or `length` (its keys
pairwise distinct) and every key they both have, `_merge(target, source)` returns the
target object, and the value of the source decides what it holds under the key.  When the
source holds a nested value and the target a scalar, the result holds the value of
`_merge({}, source[key])`, hence a value deep-equal to it; when the source holds a scalar,
the result holds that scalar, also over a nested value of the target. -/
theorem merge_kind_conflict (tc sc : ObjClass) (tprops sprops : Props)
    (key : JSString) (tv sv : JSValue)
    (hn : nullFree (.object tc tprops) = true)
    (ha : avoidsKeys exoticKeys (.object sc sprops) = true)
    (hkeys : (sprops.map Prod.fst).Nodup) (hmem : (key, sv) ∈ sprops)
    (ht : lookupKey key tprops = some tv) :
    ∃ rprops, _merge (.object tc tprops) (.object sc sprops) [] = .ok (.object tc rprops) ∧
      (typeofIsObject sv = true → typeofIsObject tv = false →
        ∃ x m, lookupKey key rprops = some x ∧ _merge emptyObject sv [] = .ok m ∧ x = m ∧
          (uniqueKeys sv = true → deepEqual x m = true)) ∧
      (typeofIsObject sv = false → lookupKey key rprops = some sv) := by
  have hap : avoidsKeysProps exoticKeys sprops = true := by simpa [avoidsKeys] using ha
  have hown : utf16 "hasOwnProperty" ∈ exoticKeys := List.mem_cons_self _ _
  have heq := merge_object_eq tc sc tprops sprops
    (lookupKey_of_avoidsKeysProps exoticKeys _ hown sprops hap)
  obtain ⟨r, hr, _⟩ := mergeProps_total exoticKeys hown sprops tc tprops hap
    (by simpa [nullFree] using hn)
  by_cases hs : typeofIsObject sv = true
  · obtain ⟨rp, m, h1, h2, h3⟩ := mergeProps_nested key sv hs sprops tc tprops r hr hkeys hmem
    subst h1
    refine ⟨rp, by rw [heq, hr], ?_, fun hf => absurd hs (by simp [hf])⟩
    intro _ htv
    rw [ht, Option.getD_some, merge2_of_not_object _ _ htv] at h2
    refine ⟨m, m, h3, by rw [merge_two_eq, h2], rfl, ?_⟩
    intro huv
    exact deepEqual_refl m (merge2_uniqueKeys sv emptyObject m huv rfl h2)
  · have hs2 : typeofIsObject sv = false := by simpa using hs
    obtain ⟨rp, h1, h2⟩ := mergeProps_scalar key sv hs2 sprops tc tprops r hr hkeys hmem
    subst h1
    exact ⟨rp, by rw [heq, hr], fun hf => absurd hf hs, fun _ => h2⟩

/-- C13, amended, at the target `{a: 5}` and the source `{a: {x: 1}}`: the call returns
`{a: {x: 1}}`, the value of `_merge({}, {x: 1})` under `a`. -/
theorem merge_kind_conflict_witness :
    ∃ rprops,
      _merge (.object .plain [(utf16 "a", .number 5)])
          (.object .plain [(utf16 "a", .object .plain [(utf16 "x", .number 1)])]) []
        = .ok (.object .plain rprops) ∧
      ∃ x m, lookupKey (utf16 "a") rprops = some x ∧
        _merge emptyObject (.object .plain [(utf16 "x", .number 1)]) [] = .ok m ∧
        x = m ∧ deepEqual x m = true :=
  match merge_kind_conflict .plain .plain [(utf16 "a", .number 5)]
      [(utf16 "a", .object .plain [(utf16 "x", .number 1)])] (utf16 "a") (.number 5)
      (.object .plain [(utf16 "x", .number 1)]) rfl (by decide) (by decide)
      (List.mem_cons_self _ _) rfl with
  | ⟨rprops, h0, h1, _⟩ =>
    match h1 rfl rfl with
    | ⟨x, m, h2, h3, h4, h5⟩ => ⟨rprops, h0, x, m, h2, h3, h4, h5 rfl⟩

end ShareButton
